import Mathlib

/-!
# irc-news: session core (handshake, registry, dispatch loop)

A shallow embedding of `server/server.go` and `user/user.go`.

* Go strings are Lean strings (sequences of Unicode characters); `strings.ToLower` maps
  `unicode.ToLower` over the characters, and `unicode.ToLower` is ASCII lower-casing plus
  the lower-case column of the table `unicode.CaseRanges`.
* Go `int` is a 64-bit two's complement integer: an `Int` kept in range by `wrapInt`.
* A `*user` is a reference `Ref` into a heap of session values; the registry maps ids to
  references, like the Go map of interface values holding pointers.
* The codec of a session is two result streams: `decoder n` is what the `n`-th call of
  `Decode` returns and `encoder n` what the `n`-th call of `Encode` returns.  Every run of
  the real program reads some such pair of streams.
* Locks are not modelled: every method runs to completion (serialized calls).
* The loop of `handshake` is bounded by its own counter; the loop of `handle` has no bound
  and is run for a given number of iterations (`fuel`).
* The type `Channel` is declared outside the two source files; it is modelled from the
  specification (a name and the list of member names).
-/

namespace IrcNews

/-! ## Codec vocabulary (package `irc`) -/

/-- Go `error` values that occur: the sentinel of package `server`, and any other error,
told apart by its text. -/
inductive Error where
  | handshakeFailed : Error
  | other (text : String) : Error
deriving DecidableEq, Repr

/-- The sentinel `var ErrHandshakeFailed = errors.New("handshake failed")`. -/
def ErrHandshakeFailed : Error := Error.handshakeFailed

/-- The struct `irc.Prefix`. -/
structure Prefix where
  Name : String
  User : String
  Host : String
deriving DecidableEq, Repr

/-- The struct `irc.Message`; `Pfx` is the Go field `Prefix` (a pointer, `none` for nil). -/
structure Message where
  Pfx : Option Prefix
  Command : String
  Params : List String
  Trailing : String
deriving DecidableEq, Repr

def NICK : String := "NICK"
def USER : String := "USER"
def QUIT : String := "QUIT"
def PING : String := "PING"
def PONG : String := "PONG"
def JOIN : String := "JOIN"
def NAMES : String := "NAMES"
def PRIVMSG : String := "PRIVMSG"
def RPL_WELCOME : String := "001"
def RPL_NAMREPLY : String := "353"
def RPL_ENDOFNAMES : String := "366"
def ERR_INVITEONLYCHAN : String := "473"

/-! ## Go primitives -/

/-- One entry of the lower-case column of Go's table `unicode.CaseRanges`: the code points
`Lo..Hi` map to `To`, `To + 1`, ... (a constant delta), or, for an `UpperLower` entry, the
range alternates upper-case and lower-case letters and each pair maps to its second
member. -/
structure CaseRange where
  Lo : Nat
  Hi : Nat
  To : Nat
  UpperLower : Bool
deriving DecidableEq, Repr

/-- The lower-case form that an entry of the table gives a code point of its range. -/
def CaseRange.apply (r : CaseRange) (n : Nat) : Nat :=
  if r.UpperLower then r.Lo + ((n - r.Lo) / 2 * 2 + 1) else r.To + (n - r.Lo)

/-- The entries of `unicode.CaseRanges` that change a code point under `LowerCase`: the
simple lower-case mappings of the Unicode character database, here of version 14.0 (a Go
release carries the table of the Unicode version it was built for). -/
def CaseRanges : List CaseRange :=
  [
    CaseRange.mk 0x0041 0x005A 0x0061 false,
    CaseRange.mk 0x00C0 0x00D6 0x00E0 false,
    CaseRange.mk 0x00D8 0x00DE 0x00F8 false,
    CaseRange.mk 0x0100 0x012F 0x0101 true,
    CaseRange.mk 0x0130 0x0130 0x0069 false,
    CaseRange.mk 0x0132 0x0137 0x0133 true,
    CaseRange.mk 0x0139 0x0148 0x013A true,
    CaseRange.mk 0x014A 0x0177 0x014B true,
    CaseRange.mk 0x0178 0x0178 0x00FF false,
    CaseRange.mk 0x0179 0x017E 0x017A true,
    CaseRange.mk 0x0181 0x0181 0x0253 false,
    CaseRange.mk 0x0182 0x0185 0x0183 true,
    CaseRange.mk 0x0186 0x0186 0x0254 false,
    CaseRange.mk 0x0187 0x0187 0x0188 false,
    CaseRange.mk 0x0189 0x018A 0x0256 false,
    CaseRange.mk 0x018B 0x018B 0x018C false,
    CaseRange.mk 0x018E 0x018E 0x01DD false,
    CaseRange.mk 0x018F 0x018F 0x0259 false,
    CaseRange.mk 0x0190 0x0190 0x025B false,
    CaseRange.mk 0x0191 0x0191 0x0192 false,
    CaseRange.mk 0x0193 0x0193 0x0260 false,
    CaseRange.mk 0x0194 0x0194 0x0263 false,
    CaseRange.mk 0x0196 0x0196 0x0269 false,
    CaseRange.mk 0x0197 0x0197 0x0268 false,
    CaseRange.mk 0x0198 0x0198 0x0199 false,
    CaseRange.mk 0x019C 0x019C 0x026F false,
    CaseRange.mk 0x019D 0x019D 0x0272 false,
    CaseRange.mk 0x019F 0x019F 0x0275 false,
    CaseRange.mk 0x01A0 0x01A5 0x01A1 true,
    CaseRange.mk 0x01A6 0x01A6 0x0280 false,
    CaseRange.mk 0x01A7 0x01A7 0x01A8 false,
    CaseRange.mk 0x01A9 0x01A9 0x0283 false,
    CaseRange.mk 0x01AC 0x01AC 0x01AD false,
    CaseRange.mk 0x01AE 0x01AE 0x0288 false,
    CaseRange.mk 0x01AF 0x01AF 0x01B0 false,
    CaseRange.mk 0x01B1 0x01B2 0x028A false,
    CaseRange.mk 0x01B3 0x01B6 0x01B4 true,
    CaseRange.mk 0x01B7 0x01B7 0x0292 false,
    CaseRange.mk 0x01B8 0x01B8 0x01B9 false,
    CaseRange.mk 0x01BC 0x01BC 0x01BD false,
    CaseRange.mk 0x01C4 0x01C4 0x01C6 false,
    CaseRange.mk 0x01C5 0x01C5 0x01C6 false,
    CaseRange.mk 0x01C7 0x01C7 0x01C9 false,
    CaseRange.mk 0x01C8 0x01C8 0x01C9 false,
    CaseRange.mk 0x01CA 0x01CA 0x01CC false,
    CaseRange.mk 0x01CB 0x01CB 0x01CC false,
    CaseRange.mk 0x01CD 0x01DC 0x01CE true,
    CaseRange.mk 0x01DE 0x01EF 0x01DF true,
    CaseRange.mk 0x01F1 0x01F1 0x01F3 false,
    CaseRange.mk 0x01F2 0x01F2 0x01F3 false,
    CaseRange.mk 0x01F4 0x01F4 0x01F5 false,
    CaseRange.mk 0x01F6 0x01F6 0x0195 false,
    CaseRange.mk 0x01F7 0x01F7 0x01BF false,
    CaseRange.mk 0x01F8 0x021F 0x01F9 true,
    CaseRange.mk 0x0220 0x0220 0x019E false,
    CaseRange.mk 0x0222 0x0233 0x0223 true,
    CaseRange.mk 0x023A 0x023A 0x2C65 false,
    CaseRange.mk 0x023B 0x023B 0x023C false,
    CaseRange.mk 0x023D 0x023D 0x019A false,
    CaseRange.mk 0x023E 0x023E 0x2C66 false,
    CaseRange.mk 0x0241 0x0241 0x0242 false,
    CaseRange.mk 0x0243 0x0243 0x0180 false,
    CaseRange.mk 0x0244 0x0244 0x0289 false,
    CaseRange.mk 0x0245 0x0245 0x028C false,
    CaseRange.mk 0x0246 0x024F 0x0247 true,
    CaseRange.mk 0x0370 0x0373 0x0371 true,
    CaseRange.mk 0x0376 0x0376 0x0377 false,
    CaseRange.mk 0x037F 0x037F 0x03F3 false,
    CaseRange.mk 0x0386 0x0386 0x03AC false,
    CaseRange.mk 0x0388 0x038A 0x03AD false,
    CaseRange.mk 0x038C 0x038C 0x03CC false,
    CaseRange.mk 0x038E 0x038F 0x03CD false,
    CaseRange.mk 0x0391 0x03A1 0x03B1 false,
    CaseRange.mk 0x03A3 0x03AB 0x03C3 false,
    CaseRange.mk 0x03CF 0x03CF 0x03D7 false,
    CaseRange.mk 0x03D8 0x03EF 0x03D9 true,
    CaseRange.mk 0x03F4 0x03F4 0x03B8 false,
    CaseRange.mk 0x03F7 0x03F7 0x03F8 false,
    CaseRange.mk 0x03F9 0x03F9 0x03F2 false,
    CaseRange.mk 0x03FA 0x03FA 0x03FB false,
    CaseRange.mk 0x03FD 0x03FF 0x037B false,
    CaseRange.mk 0x0400 0x040F 0x0450 false,
    CaseRange.mk 0x0410 0x042F 0x0430 false,
    CaseRange.mk 0x0460 0x0481 0x0461 true,
    CaseRange.mk 0x048A 0x04BF 0x048B true,
    CaseRange.mk 0x04C0 0x04C0 0x04CF false,
    CaseRange.mk 0x04C1 0x04CE 0x04C2 true,
    CaseRange.mk 0x04D0 0x052F 0x04D1 true,
    CaseRange.mk 0x0531 0x0556 0x0561 false,
    CaseRange.mk 0x10A0 0x10C5 0x2D00 false,
    CaseRange.mk 0x10C7 0x10C7 0x2D27 false,
    CaseRange.mk 0x10CD 0x10CD 0x2D2D false,
    CaseRange.mk 0x13A0 0x13EF 0xAB70 false,
    CaseRange.mk 0x13F0 0x13F5 0x13F8 false,
    CaseRange.mk 0x1C90 0x1CBA 0x10D0 false,
    CaseRange.mk 0x1CBD 0x1CBF 0x10FD false,
    CaseRange.mk 0x1E00 0x1E95 0x1E01 true,
    CaseRange.mk 0x1E9E 0x1E9E 0x00DF false,
    CaseRange.mk 0x1EA0 0x1EFF 0x1EA1 true,
    CaseRange.mk 0x1F08 0x1F0F 0x1F00 false,
    CaseRange.mk 0x1F18 0x1F1D 0x1F10 false,
    CaseRange.mk 0x1F28 0x1F2F 0x1F20 false,
    CaseRange.mk 0x1F38 0x1F3F 0x1F30 false,
    CaseRange.mk 0x1F48 0x1F4D 0x1F40 false,
    CaseRange.mk 0x1F59 0x1F59 0x1F51 false,
    CaseRange.mk 0x1F5B 0x1F5B 0x1F53 false,
    CaseRange.mk 0x1F5D 0x1F5D 0x1F55 false,
    CaseRange.mk 0x1F5F 0x1F5F 0x1F57 false,
    CaseRange.mk 0x1F68 0x1F6F 0x1F60 false,
    CaseRange.mk 0x1F88 0x1F8F 0x1F80 false,
    CaseRange.mk 0x1F98 0x1F9F 0x1F90 false,
    CaseRange.mk 0x1FA8 0x1FAF 0x1FA0 false,
    CaseRange.mk 0x1FB8 0x1FB9 0x1FB0 false,
    CaseRange.mk 0x1FBA 0x1FBB 0x1F70 false,
    CaseRange.mk 0x1FBC 0x1FBC 0x1FB3 false,
    CaseRange.mk 0x1FC8 0x1FCB 0x1F72 false,
    CaseRange.mk 0x1FCC 0x1FCC 0x1FC3 false,
    CaseRange.mk 0x1FD8 0x1FD9 0x1FD0 false,
    CaseRange.mk 0x1FDA 0x1FDB 0x1F76 false,
    CaseRange.mk 0x1FE8 0x1FE9 0x1FE0 false,
    CaseRange.mk 0x1FEA 0x1FEB 0x1F7A false,
    CaseRange.mk 0x1FEC 0x1FEC 0x1FE5 false,
    CaseRange.mk 0x1FF8 0x1FF9 0x1F78 false,
    CaseRange.mk 0x1FFA 0x1FFB 0x1F7C false,
    CaseRange.mk 0x1FFC 0x1FFC 0x1FF3 false,
    CaseRange.mk 0x2126 0x2126 0x03C9 false,
    CaseRange.mk 0x212A 0x212A 0x006B false,
    CaseRange.mk 0x212B 0x212B 0x00E5 false,
    CaseRange.mk 0x2132 0x2132 0x214E false,
    CaseRange.mk 0x2160 0x216F 0x2170 false,
    CaseRange.mk 0x2183 0x2183 0x2184 false,
    CaseRange.mk 0x24B6 0x24CF 0x24D0 false,
    CaseRange.mk 0x2C00 0x2C2F 0x2C30 false,
    CaseRange.mk 0x2C60 0x2C60 0x2C61 false,
    CaseRange.mk 0x2C62 0x2C62 0x026B false,
    CaseRange.mk 0x2C63 0x2C63 0x1D7D false,
    CaseRange.mk 0x2C64 0x2C64 0x027D false,
    CaseRange.mk 0x2C67 0x2C6C 0x2C68 true,
    CaseRange.mk 0x2C6D 0x2C6D 0x0251 false,
    CaseRange.mk 0x2C6E 0x2C6E 0x0271 false,
    CaseRange.mk 0x2C6F 0x2C6F 0x0250 false,
    CaseRange.mk 0x2C70 0x2C70 0x0252 false,
    CaseRange.mk 0x2C72 0x2C72 0x2C73 false,
    CaseRange.mk 0x2C75 0x2C75 0x2C76 false,
    CaseRange.mk 0x2C7E 0x2C7F 0x023F false,
    CaseRange.mk 0x2C80 0x2CE3 0x2C81 true,
    CaseRange.mk 0x2CEB 0x2CEE 0x2CEC true,
    CaseRange.mk 0x2CF2 0x2CF2 0x2CF3 false,
    CaseRange.mk 0xA640 0xA66D 0xA641 true,
    CaseRange.mk 0xA680 0xA69B 0xA681 true,
    CaseRange.mk 0xA722 0xA72F 0xA723 true,
    CaseRange.mk 0xA732 0xA76F 0xA733 true,
    CaseRange.mk 0xA779 0xA77C 0xA77A true,
    CaseRange.mk 0xA77D 0xA77D 0x1D79 false,
    CaseRange.mk 0xA77E 0xA787 0xA77F true,
    CaseRange.mk 0xA78B 0xA78B 0xA78C false,
    CaseRange.mk 0xA78D 0xA78D 0x0265 false,
    CaseRange.mk 0xA790 0xA793 0xA791 true,
    CaseRange.mk 0xA796 0xA7A9 0xA797 true,
    CaseRange.mk 0xA7AA 0xA7AA 0x0266 false,
    CaseRange.mk 0xA7AB 0xA7AB 0x025C false,
    CaseRange.mk 0xA7AC 0xA7AC 0x0261 false,
    CaseRange.mk 0xA7AD 0xA7AD 0x026C false,
    CaseRange.mk 0xA7AE 0xA7AE 0x026A false,
    CaseRange.mk 0xA7B0 0xA7B0 0x029E false,
    CaseRange.mk 0xA7B1 0xA7B1 0x0287 false,
    CaseRange.mk 0xA7B2 0xA7B2 0x029D false,
    CaseRange.mk 0xA7B3 0xA7B3 0xAB53 false,
    CaseRange.mk 0xA7B4 0xA7C3 0xA7B5 true,
    CaseRange.mk 0xA7C4 0xA7C4 0xA794 false,
    CaseRange.mk 0xA7C5 0xA7C5 0x0282 false,
    CaseRange.mk 0xA7C6 0xA7C6 0x1D8E false,
    CaseRange.mk 0xA7C7 0xA7CA 0xA7C8 true,
    CaseRange.mk 0xA7D0 0xA7D0 0xA7D1 false,
    CaseRange.mk 0xA7D6 0xA7D9 0xA7D7 true,
    CaseRange.mk 0xA7F5 0xA7F5 0xA7F6 false,
    CaseRange.mk 0xFF21 0xFF3A 0xFF41 false,
    CaseRange.mk 0x10400 0x10427 0x10428 false,
    CaseRange.mk 0x104B0 0x104D3 0x104D8 false,
    CaseRange.mk 0x10570 0x1057A 0x10597 false,
    CaseRange.mk 0x1057C 0x1058A 0x105A3 false,
    CaseRange.mk 0x1058C 0x10592 0x105B3 false,
    CaseRange.mk 0x10594 0x10595 0x105BB false,
    CaseRange.mk 0x10C80 0x10CB2 0x10CC0 false,
    CaseRange.mk 0x118A0 0x118BF 0x118C0 false,
    CaseRange.mk 0x16E40 0x16E5F 0x16E60 false,
    CaseRange.mk 0x1E900 0x1E921 0x1E922 false
  ]

/-- Go `unicode.To(LowerCase, r, caseRange)`: the first entry whose range holds the code
point decides; a code point in no range is its own lower-case form. -/
def lowerIn : List CaseRange → Nat → Nat
  | [], n => n
  | r :: rs, n => if r.Lo ≤ n ∧ n ≤ r.Hi then r.apply n else lowerIn rs n

/-- Go `unicode.ToLower(r rune) rune`: ASCII is handled directly, every other code point
through the table. -/
def unicode.ToLower (r : Char) : Char :=
  if r.toNat ≤ 127 then
    if 65 ≤ r.toNat ∧ r.toNat ≤ 90 then Char.ofNat (r.toNat + 32) else r
  else
    Char.ofNat (lowerIn CaseRanges r.toNat)

/-- Go `strings.ToLower`: `strings.Map(unicode.ToLower, s)`. -/
def strings.ToLower (s : String) : String := ⟨s.data.map unicode.ToLower⟩

/-- Go `strings.Join(xs, sep)`. -/
def strings.Join (xs : List String) (sep : String) : String := sep.intercalate xs

/-- Width of the Go type `int`. -/
def intSize : Nat := 64

/-- Two's complement wrap-around of a mathematical integer into the range of `int`. -/
def wrapInt (x : Int) : Int :=
  (x + 2 ^ (intSize - 1)) % 2 ^ intSize - 2 ^ (intSize - 1)

/-- Largest value of the Go type `int`. -/
def maxInt : Int := 2 ^ (intSize - 1) - 1

/-- Smallest value of the Go type `int`. -/
def minInt : Int := - 2 ^ (intSize - 1)

/-- Go `fmt.Sprintf("Guest%s", n)` for `n` of type `int`: the verb `%s` is not defined for
integers, so `fmt` renders the operand as `%!s(int=<decimal>)`. -/
def sprintfGuest (n : Int) : String := "Guest" ++ "%!s(int=" ++ toString n ++ ")"

/-! ## Package `user` -/

/-- The struct `user.Identity`. -/
structure Identity where
  Nick : String
  User : String
  Real : String
  Host : String
deriving DecidableEq, Repr

/-- The method `func (n Identity) ID() string`. -/
def Identity.ID (n : Identity) : String := strings.ToLower n.Nick

/-- The method `func (n Identity) Prefix() *irc.Prefix`. -/
def Identity.Prefix (n : Identity) : Prefix :=
  { Name := n.Nick, User := n.User, Host := n.Host }

/-- One observable action of a session on its transport. -/
inductive Effect where
  | decode : Effect
  | encode (msg : Message) (ok : Bool) : Effect
  | close : Effect
deriving DecidableEq, Repr

/-- The struct `user.user`: the identity, the two codec streams with their cursors, and
the log of transport actions so far (oldest first). -/
structure user where
  identity : Identity
  decoder : Nat → Except Error Message
  encoder : Nat → Option Error
  reads : Nat
  writes : Nat
  trace : List Effect

/-- The method `func (user *user) ID() string`, promoted from the embedded `Identity`. -/
def user.ID (u : user) : String := u.identity.ID

/-- The method `func (user *user) Nick() string`. -/
def user.Nick (u : user) : String := u.identity.Nick

/-- The method `func (user *user) Set(identity Identity)`. -/
def user.Set (u : user) (identity : Identity) : user :=
  let u := if identity.User ≠ "" then
    { u with identity := { u.identity with User := identity.User } } else u
  let u := if identity.Nick ≠ "" then
    { u with identity := { u.identity with Nick := identity.Nick } } else u
  let u := if identity.Real ≠ "" then
    { u with identity := { u.identity with Real := identity.Real } } else u
  let u := if identity.Host ≠ "" then
    { u with identity := { u.identity with Host := identity.Host } } else u
  u

/-- The method `func (user *user) Encode(msg *irc.Message) (err error)`. -/
def user.Encode (u : user) (msg : Message) : Option Error × user :=
  let err := u.encoder u.writes
  (err, { u with writes := u.writes + 1, trace := u.trace ++ [Effect.encode msg err.isNone] })

/-- The method `func (user *user) EncodeMany(msgs ...*irc.Message) (err error)`. -/
def user.EncodeMany (u : user) : List Message → Option Error × user
  | [] => (none, u)
  | msg :: msgs =>
    match u.Encode msg with
    | (some err, u) => (some err, u)
    | (none, u) => u.EncodeMany msgs

/-- The method `func (user *user) Decode() (*irc.Message, error)`. -/
def user.Decode (u : user) : Except Error Message × user :=
  (u.decoder u.reads, { u with reads := u.reads + 1, trace := u.trace ++ [Effect.decode] })

/-- The method `Close() error` of the embedded connection. -/
def user.Close (u : user) : user :=
  { u with trace := u.trace ++ [Effect.close] }

/-! ## Package `server` -/

/-- The function `func ID(s string) string`. -/
def ID (s : String) : String := strings.ToLower s

def serverName : String := "irc-news"

/-- Modelled from the spec: the type `Channel` and its constructor `NewChannel` are declared
in a file of package `server` that is not part of the sources at hand.  The spec gives a
channel a name, an id accessor returning the lowercased name and a names accessor returning
the member display names. -/
structure Channel where
  name : String
  members : List String
deriving DecidableEq, Repr

/-- Modelled from the spec: `Channel.ID()` is the lowercased name. -/
def Channel.ID (ch : Channel) : String := IrcNews.ID ch.name

/-- Modelled from the spec: `Channel.Names()` lists the member display names. -/
def Channel.Names (ch : Channel) : List String := ch.members

/-- Modelled from the spec: `NewChannel(s, name)` is a channel of that name without members. -/
def NewChannel (name : String) : Channel := { name := name, members := [] }

/-- A `*user` pointer. -/
abbrev Ref := Nat

/-- The struct `server.server` (without its lock, prefix cache and creation time). -/
structure server where
  users : String → Option Ref
  channels : String → Option Channel
  count : Int

/-- The constructor `func New() Server`. -/
def New : server :=
  { users := fun _ => none, channels := fun _ => none, count := 0 }

/-- The method `func (s *server) Prefix() *irc.Prefix`. -/
def server.Prefix (_s : server) : Prefix := { Name := serverName, User := "", Host := "" }

/-- The method `func (s *server) HasChannel(name string) bool`. -/
def server.HasChannel (s : server) (name : String) : Bool :=
  (s.channels (ID name)).isSome

/-- The method `func (s *server) Channel(name string) Channel`. -/
def server.Channel (s : server) (name : String) : Channel × server :=
  let id := ID name
  match s.channels id with
  | some ch => (ch, s)
  | none =>
    let ch := NewChannel name
    let id := ch.ID
    (ch, { s with channels := Function.update s.channels id (some ch) })

/-- The method `func (s *server) guestNick() string`. -/
def server.guestNick (s : server) : String × server :=
  let s := { s with count := wrapInt (s.count + 1) }
  (sprintfGuest s.count, s)

/-- The loop of `names`: `r` is the slice built so far. -/
def server.namesLoop (s : server) (u : user) (r : List Message) :
    List String → List Message × server
  | [] => (r, s)
  | channel :: rest =>
    if !s.HasChannel channel then
      s.namesLoop u r rest
    else
      match s.Channel channel with
      | (ch, s1) =>
        let msg : Message :=
          { Pfx := some s1.Prefix
            Command := RPL_NAMREPLY
            Params := [u.Nick, "=", channel]
            Trailing := strings.Join ch.Names " " }
        s1.namesLoop u (r ++ [msg]) rest

/-- The method `func (s *server) names(u user.User, channels ...string) []*irc.Message`. -/
def server.names (s : server) (u : user) (channels : List String) : List Message × server :=
  match s.namesLoop u [] channels with
  | (r, s) =>
    let endParams := [u.Nick]
    let endParams := if channels.length = 1 then endParams ++ [channels.headD ""] else endParams
    (r ++ [{ Pfx := some s.Prefix
             Params := endParams
             Command := RPL_ENDOFNAMES
             Trailing := "End of /NAMES list." }], s)

/-- The running program: the registry, the heap of sessions, and the sessions for which
`Join` has started a dispatch goroutine (oldest first). -/
structure World where
  srv : server
  mem : Ref → user
  spawned : List Ref

/-- Applies a session method that only changes the session behind `u`. -/
def World.onUser {α : Type} (w : World) (u : Ref) (f : user → α × user) : α × World :=
  match f (w.mem u) with
  | (a, v) => (a, { w with mem := Function.update w.mem u v })

/-- The method `func (s *server) add(u user.User) (ok bool)`. -/
def server.add (w : World) (u : Ref) : Bool × World :=
  let id := (w.mem u).ID
  if (w.srv.users id).isSome then
    (false, w)
  else
    (true, { w with srv := { w.srv with users := Function.update w.srv.users id (some u) } })

/-- The loop of `handshake`: `i` is the loop counter (5 at the start), `identity` the local
variable of that name. -/
def server.handshakeLoop (u : Ref) : Nat → Identity → World → Option Error × World
  | 0, _, w => (some ErrHandshakeFailed, w)
  | i + 1, identity, w =>
    match w.onUser u user.Decode with
    | (Except.error err, w) => (some err, w)
    | (Except.ok msg, w) =>
      if msg.Params.length < 1 then
        server.handshakeLoop u i identity w
      else if msg.Command = NICK then
        let identity := { identity with Nick := msg.Params.headD "" }
        server.handshakeLoop u i identity w
      else if msg.Command = USER then
        let identity := { identity with User := msg.Params.headD "" }
        let identity := { identity with Real := msg.Trailing }
        let w := { w with mem := Function.update w.mem u ((w.mem u).Set identity) }
        match server.add w u with
        | (ok, w) =>
          match (if !ok then
                  match w.srv.guestNick with
                  | (nick, s) =>
                    let w := { w with srv := s }
                    let identity := { identity with Nick := nick }
                    match server.add w u with
                    | (ok, w) => (ok, identity, w)
                 else (ok, identity, w)) with
          | (ok, identity, w) =>
            if !ok then
              (some ErrHandshakeFailed, w)
            else
              w.onUser u (fun v => v.Encode
                { Pfx := some w.srv.Prefix
                  Command := RPL_WELCOME
                  Params := [identity.User]
                  Trailing := "Welcome!" })
      else
        server.handshakeLoop u i identity w

/-- The method `func (s *server) handshake(u user.User) error`. -/
def server.handshake (w : World) (u : Ref) : Option Error × World :=
  server.handshakeLoop u 5 { Nick := "", User := "", Real := "", Host := "" } w

/-- The method `func (s *server) Join(u user.User) error`; `go s.handle(u)` is recorded in
`spawned`. -/
def server.Join (w : World) (u : Ref) : Option Error × World :=
  match server.handshake w u with
  | (some err, w) => (some err, w)
  | (none, w) => (none, { w with spawned := w.spawned ++ [u] })

/-- Whether a run of the dispatch loop has returned within the iterations granted to it. -/
inductive Status where
  | running : Status
  | returned : Status
deriving DecidableEq, Repr

/-- The loop of `handle`, for at most `fuel` iterations (the Go loop has no bound). -/
def server.handleLoop (u : Ref) : Nat → World → Status × World
  | 0, w => (Status.running, w)
  | fuel + 1, w =>
    match w.onUser u user.Decode with
    | (Except.error _, w) => (Status.returned, w)
    | (Except.ok msg, w) =>
      if msg.Command = QUIT then
        (Status.returned, w)
      else if msg.Command = PING then
        match w.onUser u (fun v => v.Encode
            { Pfx := some w.srv.Prefix
              Command := PONG
              Params := msg.Params
              Trailing := "" }) with
        | (some _, w) => (Status.returned, w)
        | (none, w) => server.handleLoop u fuel w
      else if msg.Command = JOIN then
        match w.onUser u (fun v => v.Encode
            { Pfx := some w.srv.Prefix
              Command := ERR_INVITEONLYCHAN
              Params := []
              Trailing := "Cannot join channel (+i)" }) with
        | (some _, w) => (Status.returned, w)
        | (none, w) => server.handleLoop u fuel w
      else if msg.Command = NAMES then
        if msg.Params.length < 1 then
          server.handleLoop u fuel w
        else
          match w.srv.names (w.mem u) [msg.Params.headD ""] with
          | (msgs, s) =>
            match ({ w with srv := s } : World).onUser u (fun v => v.EncodeMany msgs) with
            | (some _, w) => (Status.returned, w)
            | (none, w) => server.handleLoop u fuel w
      else if msg.Command = PRIVMSG then
        server.handleLoop u fuel w
      else
        server.handleLoop u fuel w

/-- The method `func (s *server) handle(u user.User)`: the loop, then the deferred
`u.Close()` once the loop has returned. -/
def server.handle (fuel : Nat) (w : World) (u : Ref) : Status × World :=
  match server.handleLoop u fuel w with
  | (Status.returned, w) => (Status.returned, (w.onUser u (fun v => ((), v.Close))).2)
  | (Status.running, w) => (Status.running, w)

/-! ## Vocabulary of the statements -/

/-- Value of a decimal digit character. -/
def digitVal (c : Char) : Nat := c.toNat - 48

/-- Value of a string of decimal digits, most significant first. -/
def digitsVal (cs : List Char) : Nat := cs.foldl (fun a c => a * 10 + digitVal c) 0

/-- Value of an optionally signed string of decimal digits. -/
def intVal : List Char → Int
  | '-' :: cs => - (digitsVal cs : Int)
  | cs => (digitsVal cs : Int)

/-- A character that the decimal rendering of a natural number can contain. -/
def isDigit (c : Char) : Prop := ∃ k, k < 10 ∧ c = Nat.digitChar k

/-- The session after `k` further calls of `Decode` and no other action. -/
def user.decoded (v : user) (k : Nat) : user :=
  { v with reads := v.reads + k, trace := v.trace ++ List.replicate k Effect.decode }

/-- The world in which session `u` is replaced by `v`. -/
def World.setUser (w : World) (u : Ref) (v : user) : World :=
  { w with mem := Function.update w.mem u v }

/-- The welcome reply of `handshake` for account name `a`. -/
def welcome (a : String) : Message :=
  { Pfx := some { Name := serverName, User := "", Host := "" }
    Command := RPL_WELCOME
    Params := [a]
    Trailing := "Welcome!" }

/-- A USER command with at least one parameter: the message that ends a handshake. -/
def isUser (m : Message) : Prop := 1 ≤ m.Params.length ∧ m.Command = USER

instance (m : Message) : Decidable (isUser m) := by unfold isUser; infer_instance

/-- A NICK command with at least one parameter. -/
def isNick (m : Message) : Prop := 1 ≤ m.Params.length ∧ m.Command = NICK

instance (m : Message) : Decidable (isNick m) := by unfold isNick; infer_instance

/-- What one message that does not end the handshake does to the pending identity. -/
def nickStep (identity : Identity) (m : Message) : Identity :=
  if isNick m then { identity with Nick := m.Params.headD "" } else identity

/-- First parameter of the last NICK-with-parameters among `ms`, if there is one. -/
def lastNick (ms : List Message) : Option String :=
  ((ms.filter (fun m => decide (isNick m))).getLast?).map (fun m => m.Params.headD "")

/-- The nick a handshake settles on: the first parameter of the last NICK-with-parameters
among `ms` when that is non-empty, otherwise the nick the session had before. -/
def chosenNick (ms : List Message) (prior : String) : String :=
  match lastNick ms with
  | some p => if p ≠ "" then p else prior
  | none => prior

/-- Outcome of the USER branch of `handshake`, for the session value `v` that `Set` has
produced and the account name `a`. -/
def userOutcome (w : World) (u : Ref) (v : user) (a : String) : Option Error × World :=
  if (w.srv.users v.ID).isSome then
    (some ErrHandshakeFailed,
      { srv := { w.srv with count := wrapInt (w.srv.count + 1) }
        mem := Function.update w.mem u v
        spawned := w.spawned })
  else
    (v.encoder v.writes,
      { srv := { w.srv with users := Function.update w.srv.users v.ID (some u) }
        mem := Function.update w.mem u
          { v with writes := v.writes + 1
                   trace := v.trace ++ [Effect.encode (welcome a) (v.encoder v.writes).isNone] }
        spawned := w.spawned })

/-- The nicks returned by `n` successive calls of `guestNick`, and the registry after them. -/
def server.guestNicks (s : server) : Nat → List String × server
  | 0 => ([], s)
  | n + 1 =>
    match s.guestNick with
    | (nick, s1) =>
      match s1.guestNicks n with
      | (nicks, s2) => (nick :: nicks, s2)

/-- The name-reply of the names report for the requested channel name `c`. -/
def nameReply (s : server) (u : user) (c : String) : Message :=
  { Pfx := some s.Prefix
    Command := RPL_NAMREPLY
    Params := [u.Nick, "=", c]
    Trailing :=
      match s.channels (ID c) with
      | some ch => strings.Join ch.Names " "
      | none => "" }

/-- The end-of-names reply of the names report for the requested channel names `cs`. -/
def endOfNames (s : server) (u : user) (cs : List String) : Message :=
  { Pfx := some s.Prefix
    Command := RPL_ENDOFNAMES
    Params :=
      match cs with
      | [c] => [u.Nick, c]
      | _ => [u.Nick]
    Trailing := "End of /NAMES list." }

/-- The names report as the specification words it: one name-reply for each requested
channel that exists, in request order, then one end-of-names reply. -/
def namesReport (s : server) (u : user) (cs : List String) : List Message :=
  (cs.filter (fun c => s.HasChannel c)).map (nameReply s u) ++ [endOfNames s u cs]

/-- A call into the registry. -/
inductive Call where
  | Join (u : Ref) : Call
  | handshake (u : Ref) : Call
  | handle (fuel : Nat) (u : Ref) : Call
deriving DecidableEq, Repr

/-- The world after a call. -/
def Call.run (w : World) : Call → World
  | Call.Join u => (server.Join w u).2
  | Call.handshake u => (server.handshake w u).2
  | Call.handle fuel u => (server.handle fuel w u).2

/-- The world after a sequence of calls, first call first. -/
def runCalls (w : World) (cs : List Call) : World := cs.foldl Call.run w

/-- Session `u` is bound under no key of `users`. -/
def World.unregistered (w : World) (u : Ref) : Prop := ∀ k, w.srv.users k ≠ some u

/-- The call hands a session to `Join` or `handshake` only if it is not registered. -/
def Call.fresh (w : World) : Call → Prop
  | Call.Join u => w.unregistered u
  | Call.handshake u => w.unregistered u
  | Call.handle _ _ => True

/-- Every call of the sequence is fresh in the world it is made in. -/
def freshCalls (w : World) : List Call → Prop
  | [] => True
  | c :: cs => c.fresh w ∧ freshCalls (c.run w) cs

/-- Every binding of `users` is keyed by the id of the bound session's current nick. -/
def World.keysAgree (w : World) : Prop :=
  ∀ k s, w.srv.users k = some s → k = ID (w.mem s).Nick

/-- A world with the empty registry of `New` and the sessions `mem`. -/
def World.start (mem : Ref → user) : World := { srv := New, mem := mem, spawned := [] }

/-- A session that has done nothing yet: nick `nick`, inbound results `inbound` (after
them every `Decode` fails with `io.EOF`), and `Encode` results `enc`. -/
def user.fresh (nick : String) (inbound : List (Except Error Message))
    (enc : Nat → Option Error) : user :=
  { identity := { Nick := nick, User := "", Real := "", Host := "localhost" }
    decoder := fun n => inbound.getD n (Except.error (Error.other "EOF"))
    encoder := enc
    reads := 0
    writes := 0
    trace := [] }

/-- A message as the codec decodes it: no prefix. -/
def msg (command : String) (params : List String) (trailing : String) : Message :=
  { Pfx := none, Command := command, Params := params, Trailing := trailing }

/-! ## Predicates used in the proofs, and the worlds of the examples -/

/-- What a run of the handshake loop leaves alone, and the bounds on what it changes. -/
def handshakeFrame (u : Ref) (i : Nat) (w : World) (r : Option Error × World) : Prop :=
  r.2.spawned = w.spawned ∧ r.2.srv.channels = w.srv.channels ∧
  (∀ x, x ≠ u → r.2.mem x = w.mem x) ∧
  (r.2.mem u).decoder = (w.mem u).decoder ∧ (r.2.mem u).encoder = (w.mem u).encoder ∧
  (w.mem u).reads ≤ (r.2.mem u).reads ∧ (r.2.mem u).reads ≤ (w.mem u).reads + i ∧
  (r.2.srv.count = w.srv.count ∨ r.2.srv.count = wrapInt (w.srv.count + 1)) ∧
  ((r.2.mem u).writes = (w.mem u).writes ∨ (r.2.mem u).writes = (w.mem u).writes + 1)

/-- Going from `w` to `w2` changed neither the registry, nor the started loops, nor the
identity of any session. -/
def World.quiet (w w2 : World) : Prop :=
  w2.srv = w.srv ∧ w2.spawned = w.spawned ∧ ∀ x, (w2.mem x).identity = (w.mem x).identity

/-- The first client of the end-to-end scenario: `NICK bob`, `USER bob 0 * :Bob Real`. -/
def bobFirst : user :=
  user.fresh "" [Except.ok (msg NICK ["bob"] ""), Except.ok (msg USER ["bob", "0", "*"] "Bob Real")]
    (fun _ => none)

/-- The second client of the end-to-end scenario: `NICK bob`, `USER bob 0 * :Other Bob`. -/
def bobSecond : user :=
  user.fresh "" [Except.ok (msg NICK ["bob"] ""), Except.ok (msg USER ["bob", "0", "*"] "Other Bob")]
    (fun _ => none)

/-- The empty registry with the first client at reference 0 and the second elsewhere. -/
def bobWorld : World := World.start (fun r => if r = 0 then bobFirst else bobSecond)

/-- The world of the scenario once the first client has joined. -/
def bobJoined : World := (server.Join bobWorld 0).2

/-- A client whose transport rejects every write: `NICK bob`, `USER bob 0 * :Bob Real`. -/
def brokenPipe : user :=
  user.fresh "" [Except.ok (msg NICK ["bob"] ""), Except.ok (msg USER ["bob", "0", "*"] "Bob Real")]
    (fun _ => some (Error.other "broken pipe"))

/-- The empty registry with `brokenPipe` as every session. -/
def brokenWorld : World := World.start (fun _ => brokenPipe)

/-- A client that closes its connection without sending anything. -/
def silent : user := user.fresh "" [] (fun _ => none)

/-- The empty registry with `silent` as every session. -/
def silentWorld : World := World.start (fun _ => silent)

/-- A client that sends five messages, none of them a USER command with a parameter. -/
def chatty : user :=
  user.fresh ""
    [Except.ok (msg NICK ["bob"] ""), Except.ok (msg USER [] "Bob Real"),
      Except.ok (msg PING [] "x"), Except.ok (msg "CAP" ["LS"] ""),
      Except.ok (msg NICK ["rob"] "")]
    (fun _ => none)

/-- The empty registry with `chatty` as every session. -/
def chattyWorld : World := World.start (fun _ => chatty)

/-- The registry of `New` with the guest counter at the largest `int`. -/
def fullCounter : server := { New with count := maxInt }

/-- A client that sends `NICK alice`, `USER alice 0 * :Alice`, `NICK bob`, `USER bob 0 * :Bob`. -/
def renamer : user :=
  user.fresh ""
    [Except.ok (msg NICK ["alice"] ""), Except.ok (msg USER ["alice", "0", "*"] "Alice"),
      Except.ok (msg NICK ["bob"] ""), Except.ok (msg USER ["bob", "0", "*"] "Bob")]
    (fun _ => none)

/-- The empty registry with `renamer` as every session. -/
def renamerWorld : World := World.start (fun _ => renamer)

/-- A registry with the one channel `#news`, whose members are `a` and `b`. -/
def newsServer : server :=
  { New with channels := Function.update New.channels "#news" (some { name := "#News", members := ["a", "b"] }) }

/-! ## The dispatch loop: replies, trace shape, and the worlds of its examples -/

/-- The session after one call of `Encode` on `msg` that succeeded (`ok`) or failed. -/
def user.sent (v : user) (msg : Message) (ok : Bool) : user :=
  { v with writes := v.writes + 1, trace := v.trace ++ [Effect.encode msg ok] }

/-- The reply of the dispatch loop to the PING message `m`. -/
def pong (m : Message) : Message :=
  { Pfx := some { Name := serverName, User := "", Host := "" }
    Command := PONG
    Params := m.Params
    Trailing := "" }

/-- The reply of the dispatch loop to a JOIN message. -/
def inviteOnly : Message :=
  { Pfx := some { Name := serverName, User := "", Host := "" }
    Command := ERR_INVITEONLYCHAN
    Params := []
    Trailing := "Cannot join channel (+i)" }

/-- The messages the dispatch loop hands to the encoder in reaction to the decoded message
`m` (not a QUIT), for the registry `s` and the session `v`. -/
def replies (s : server) (v : user) (m : Message) : List Message :=
  if m.Command = PING then [pong m]
  else if m.Command = JOIN then [inviteOnly]
  else if m.Command = NAMES ∧ 1 ≤ m.Params.length then (s.names v [m.Params.headD ""]).1
  else []

/-- The transport actions `effs` that a run of the dispatch loop has added, as far as the
release of the transport is concerned: no `Close` among them; and if the loop has returned,
it has decoded at least once, and either its last action is a decode (which failed or
brought a QUIT) or it is an encode that failed. -/
def loopShape (v v2 : user) (st : Status) (effs : List Effect) : Prop :=
  v2.trace = v.trace ++ effs ∧ Effect.close ∉ effs ∧ v2.decoder = v.decoder ∧
  v.reads ≤ v2.reads ∧
  (st = Status.returned → v.reads < v2.reads ∧
    ((effs.getLast? = some Effect.decode ∧
        ((∃ e, v.decoder (v2.reads - 1) = Except.error e) ∨
         (∃ m, v.decoder (v2.reads - 1) = Except.ok m ∧ m.Command = QUIT))) ∨
     ((∃ m, effs.getLast? = some (Effect.encode m false)) ∧
        ∃ m, v.decoder (v2.reads - 1) = Except.ok m ∧ m.Command ≠ QUIT)))

/-- A registered client that sends `PING irc.example`, then `QUIT`. -/
def pinger : user :=
  user.fresh "bob" [Except.ok (msg PING ["irc.example"] ""), Except.ok (msg QUIT [] "")]
    (fun _ => none)

/-- The empty registry with `pinger` as every session. -/
def pingWorld : World := World.start (fun _ => pinger)

/-- A registered client that sends `PING :token123`, which the codec decodes to a PING
without parameters and with the trailing field `token123`, then `QUIT`. -/
def tokenPinger : user :=
  user.fresh "bob" [Except.ok (msg PING [] "token123"), Except.ok (msg QUIT [] "")]
    (fun _ => none)

/-- The empty registry with `tokenPinger` as every session. -/
def tokenWorld : World := World.start (fun _ => tokenPinger)

/-- A registered client that sends `JOIN #test`, then `QUIT`. -/
def joiner : user :=
  user.fresh "bob" [Except.ok (msg JOIN ["#test"] ""), Except.ok (msg QUIT [] "")]
    (fun _ => none)

/-- The empty registry with `joiner` as every session. -/
def joinWorld : World := World.start (fun _ => joiner)

/-- A client that registers as `bob` and then asks for the names of `#News` and `#x` in one
NAMES command, then for nothing (NAMES without parameters), sends a PRIVMSG and quits. -/
def lister : user :=
  user.fresh ""
    [Except.ok (msg NICK ["bob"] ""), Except.ok (msg USER ["bob", "0", "*"] "Bob Real"),
      Except.ok (msg NAMES ["#News", "#x"] ""), Except.ok (msg NAMES [] ""),
      Except.ok (msg PRIVMSG ["#News"] "hello"), Except.ok (msg QUIT [] "")]
    (fun _ => none)

/-- The registry with the channel `#news` and `lister` as every session. -/
def listWorld : World := { srv := newsServer, mem := fun _ => lister, spawned := [] }

/-- The world of `listWorld` once session 0 has joined. -/
def listJoined : World := (server.Join listWorld 0).2

/-- Two characters are equal, or one is the lower-case form of the other. -/
def caseVariant (x y : Char) : Prop :=
  x = y ∨ y = unicode.ToLower x ∨ x = unicode.ToLower y

/-- Two strings differ only in letter case: they have the same length and their characters
are case variants position by position. -/
def differOnlyInCase (a b : String) : Prop := List.Forall₂ caseVariant a.data b.data

/-- The registry `s2` has every binding of `users` and of `channels` that `s` has, bound to
the same session or channel. -/
def server.keeps (s s2 : server) : Prop :=
  (∀ k x, s.users k = some x → s2.users k = some x) ∧
  (∀ k c, s.channels k = some c → s2.channels k = some c)

/-- The code points `a..b` are Unicode scalar values. -/
def validInterval (a b : Nat) : Bool :=
  decide (b < 0xD800) || (decide (0xE000 ≤ a) && decide (b < 0x110000))

/-- What makes the lower-case forms given by the entry `r` fixed points of the table `T`:
for a constant delta no entry of `T` meets the image of `r`; for an `UpperLower` entry the
range has even length and no other entry of `T` meets it. -/
def rangeOk (T : List CaseRange) (r : CaseRange) : Bool :=
  decide (r.Lo ≤ r.Hi) &&
  if r.UpperLower then
    decide ((r.Hi - r.Lo) % 2 = 1) && validInterval r.Lo r.Hi &&
      T.all (fun r2 => decide (r2 = r) || decide (r2.Hi < r.Lo) || decide (r.Hi < r2.Lo))
  else
    validInterval r.To (r.To + (r.Hi - r.Lo)) &&
      T.all (fun r2 => decide (r2.Hi < r.To) || decide (r.To + (r.Hi - r.Lo) < r2.Lo))

/-! # Lemmas -/

/-! ## Lower-casing -/

set_option maxRecDepth 100000 in
theorem CaseRanges_ok : CaseRanges.all (rangeOk CaseRanges) = true := by decide

theorem lowerIn_fixed (L : List CaseRange) (n : Nat)
    (h : ∀ r ∈ L, ¬ (r.Lo ≤ n ∧ n ≤ r.Hi)) : lowerIn L n = n := by
  induction L with
  | nil => rfl
  | cons r rs ih =>
    simp only [lowerIn, h r (List.mem_cons_self r rs), if_false]
    exact ih (fun r2 h2 => h r2 (List.mem_cons_of_mem r h2))

theorem lowerIn_first (L : List CaseRange) (n : Nat) :
    (∃ r ∈ L, (r.Lo ≤ n ∧ n ≤ r.Hi) ∧ lowerIn L n = r.apply n) ∨
    ((∀ r ∈ L, ¬ (r.Lo ≤ n ∧ n ≤ r.Hi)) ∧ lowerIn L n = n) := by
  induction L with
  | nil => exact Or.inr ⟨by simp, rfl⟩
  | cons r rs ih =>
    by_cases h : r.Lo ≤ n ∧ n ≤ r.Hi
    · exact Or.inl ⟨r, List.mem_cons_self r rs, h, by simp [lowerIn, h]⟩
    · rcases ih with ⟨r2, h2, h3, h4⟩ | ⟨h2, h3⟩
      · exact Or.inl ⟨r2, List.mem_cons_of_mem r h2, h3, by simp [lowerIn, h, h4]⟩
      · refine Or.inr ⟨?_, by simp [lowerIn, h, h3]⟩
        intro r2 hr2
        rcases List.mem_cons.mp hr2 with rfl | hr2
        · exact h
        · exact h2 r2 hr2

theorem validInterval_spec (a b m : Nat) (h : validInterval a b = true) (h1 : a ≤ m)
    (h2 : m ≤ b) : m.isValidChar := by
  simp only [validInterval, Bool.or_eq_true, Bool.and_eq_true, decide_eq_true_eq] at h
  unfold Nat.isValidChar
  omega

/-- The fixed-point property of a table whose every entry passes `rangeOk`. -/
theorem lowerIn_idem (T : List CaseRange) (hT : T.all (rangeOk T) = true) (n : Nat) :
    lowerIn T (lowerIn T n) = lowerIn T n ∧
    (n.isValidChar → (lowerIn T n).isValidChar) := by
  rcases lowerIn_first T n with ⟨r, hr, hin, happ⟩ | ⟨_, hfix⟩
  · have hok := List.all_eq_true.mp hT r hr
    rw [happ]
    unfold rangeOk at hok
    simp only [Bool.and_eq_true, decide_eq_true_eq] at hok
    obtain ⟨hle, hok⟩ := hok
    cases hUL : r.UpperLower with
    | true =>
      simp only [hUL, if_true, Bool.and_eq_true, decide_eq_true_eq, List.all_eq_true,
        Bool.or_eq_true] at hok
      obtain ⟨⟨hodd, hval⟩, hdis⟩ := hok
      have hm : r.apply n = r.Lo + ((n - r.Lo) / 2 * 2 + 1) := by simp [CaseRange.apply, hUL]
      have hmin : r.Lo ≤ r.apply n ∧ r.apply n ≤ r.Hi := by rw [hm]; omega
      refine ⟨?_, fun _ => validInterval_spec _ _ _ hval hmin.1 hmin.2⟩
      rcases lowerIn_first T (r.apply n) with ⟨r2, hr2, hin2, happ2⟩ | ⟨hnone, _⟩
      · have : r2 = r := by
          rcases hdis r2 hr2 with (h1 | h1) | h1
          · exact h1
          · omega
          · omega
        rw [happ2, this]
        simp only [CaseRange.apply, hUL, if_true]
        omega
      · exact absurd hmin (hnone r hr)
    | false =>
      simp only [hUL, Bool.false_eq_true, if_false, Bool.and_eq_true, List.all_eq_true,
        Bool.or_eq_true, decide_eq_true_eq] at hok
      obtain ⟨hval, hdis⟩ := hok
      have hm : r.apply n = r.To + (n - r.Lo) := by simp [CaseRange.apply, hUL]
      refine ⟨?_, fun _ => validInterval_spec _ _ _ hval (by rw [hm]; omega) (by rw [hm]; omega)⟩
      apply lowerIn_fixed
      intro r2 hr2
      have := hdis r2 hr2
      rw [hm]
      omega
  · rw [hfix]
    exact ⟨hfix, id⟩

theorem toNat_ofNat (m : Nat) (h : m.isValidChar) : (Char.ofNat m).toNat = m := by
  simp only [Char.ofNat, h, dite_true, Char.toNat, Char.ofNatAux]
  rfl

theorem unicode_ToLower_idem (c : Char) :
    unicode.ToLower (unicode.ToLower c) = unicode.ToLower c := by
  by_cases h : c.toNat ≤ 127
  · by_cases h2 : 65 ≤ c.toNat ∧ c.toNat ≤ 90
    · have hc : c = Char.ofNat c.toNat := (Char.ofNat_toNat c).symm
      generalize c.toNat = n at h h2 hc
      subst hc
      obtain ⟨h3, h4⟩ := h2
      interval_cases n <;> decide
    · have : unicode.ToLower c = c := by simp [unicode.ToLower, h, h2]
      rw [this, this]
  · obtain ⟨hidem, hvalid⟩ := lowerIn_idem CaseRanges CaseRanges_ok c.toNat
    have hv : (lowerIn CaseRanges c.toNat).isValidChar := hvalid c.valid
    have hlow : unicode.ToLower c = Char.ofNat (lowerIn CaseRanges c.toNat) := by
      simp [unicode.ToLower, h]
    rw [hlow]
    generalize hm : lowerIn CaseRanges c.toNat = m at hidem hv
    have hmn : (Char.ofNat m).toNat = m := toNat_ofNat m hv
    unfold unicode.ToLower
    rw [hmn]
    by_cases h5 : m ≤ 127
    · have h6 : ¬ (65 ≤ m ∧ m ≤ 90) := by
        rintro ⟨a, b⟩
        have key : ∀ k, 65 ≤ k → k ≤ 90 → lowerIn CaseRanges k ≠ k := by
          intro k hk1 hk2
          interval_cases k <;> decide
        exact key m a b hidem
      simp [h5, h6]
    · simp [h5, hidem]

theorem unicode_ToLower_ascii (c : Char) (h : c.toNat ≤ 127) :
    unicode.ToLower c = Char.toLower c := by
  simp only [unicode.ToLower, Char.toLower, h, if_true, ge_iff_le]

/-! ## Decimal rendering -/

theorem digitChar_facts (k : Nat) (h : k < 10) :
    digitVal (Nat.digitChar k) = k ∧ unicode.ToLower (Nat.digitChar k) = Nat.digitChar k ∧
      Nat.digitChar k ≠ '-' := by
  interval_cases k <;> decide

theorem toDigitsCore_append (fuel : Nat) : ∀ (n : Nat) (ds : List Char),
    Nat.toDigitsCore 10 fuel n ds = Nat.toDigitsCore 10 fuel n [] ++ ds := by
  induction fuel with
  | zero => intro n ds; simp [Nat.toDigitsCore]
  | succ f ih =>
    intro n ds
    simp only [Nat.toDigitsCore]
    split
    · simp
    · rw [ih (n / 10) (Nat.digitChar (n % 10) :: ds), ih (n / 10) [Nat.digitChar (n % 10)]]
      simp

theorem digitsVal_snoc (cs : List Char) (c : Char) :
    digitsVal (cs ++ [c]) = digitsVal cs * 10 + digitVal c := by
  simp [digitsVal, List.foldl_append]

theorem toDigitsCore_spec (fuel : Nat) : ∀ n : Nat, n < fuel →
    digitsVal (Nat.toDigitsCore 10 fuel n []) = n ∧
      (∀ c ∈ Nat.toDigitsCore 10 fuel n [], isDigit c) ∧ Nat.toDigitsCore 10 fuel n [] ≠ [] := by
  induction fuel with
  | zero => intro n h; omega
  | succ f ih =>
    intro n h
    have hd := digitChar_facts (n % 10) (Nat.mod_lt _ (by decide))
    simp only [Nat.toDigitsCore]
    split
    · rename_i h0
      refine ⟨?_, ?_, by simp⟩
      · simp [digitsVal, hd.1]; omega
      · intro c hc
        simp at hc
        exact ⟨n % 10, Nat.mod_lt _ (by decide), hc⟩
    · rename_i h0
      have hlt : n / 10 < f := by omega
      obtain ⟨h1, h2, _⟩ := ih (n / 10) hlt
      rw [toDigitsCore_append]
      refine ⟨?_, ?_, by simp⟩
      · rw [digitsVal_snoc, h1, hd.1]; omega
      · intro c hc
        simp at hc
        rcases hc with hc | hc
        · exact h2 c hc
        · exact ⟨n % 10, Nat.mod_lt _ (by decide), hc⟩

theorem repr_spec (n : Nat) :
    digitsVal (Nat.repr n).data = n ∧ (∀ c ∈ (Nat.repr n).data, isDigit c) ∧
      (Nat.repr n).data ≠ [] := by
  have := toDigitsCore_spec (n + 1) n (Nat.lt_succ_self n)
  simpa [Nat.repr, Nat.toDigits, List.asString] using this

theorem intVal_toString (n : Int) : intVal (toString n).data = n := by
  cases n with
  | ofNat m =>
    obtain ⟨h1, h2, h3⟩ := repr_spec m
    show intVal (Nat.repr m).data = _
    cases hcs : (Nat.repr m).data with
    | nil => exact absurd hcs h3
    | cons c cs =>
      have hc : c ≠ '-' := by
        obtain ⟨k, hk, rfl⟩ := h2 c (by simp [hcs])
        exact (digitChar_facts k hk).2.2
      rw [hcs] at h1
      unfold intVal
      split
      · rename_i heq; simp at heq; exact absurd heq.1 hc
      · simp [h1]
  | negSucc m =>
    obtain ⟨h1, _, _⟩ := repr_spec (m + 1)
    show intVal ("-" ++ Nat.repr (m + 1)).data = _
    simp only [String.data_append]
    show intVal ('-' :: (Nat.repr (m + 1)).data) = _
    simp only [intVal, h1]
    rfl

theorem toLower_toString (n : Int) :
    (toString n).data.map unicode.ToLower = (toString n).data := by
  have key : ∀ m : Nat, (Nat.repr m).data.map unicode.ToLower = (Nat.repr m).data := by
    intro m
    obtain ⟨_, h2, _⟩ := repr_spec m
    conv_rhs => rw [← List.map_id (Nat.repr m).data]
    apply List.map_congr_left
    intro c hc
    obtain ⟨k, hk, rfl⟩ := h2 c hc
    exact (digitChar_facts k hk).2.1
  cases n with
  | ofNat m => exact key m
  | negSucc m =>
    show ("-" ++ Nat.repr (m + 1)).data.map unicode.ToLower = ("-" ++ Nat.repr (m + 1)).data
    simp only [String.data_append, List.map_append, key]
    rfl

theorem ID_sprintfGuest (n : Int) :
    ID (sprintfGuest n) = "guest%!s(int=" ++ toString n ++ ")" := by
  apply String.ext
  simp only [ID, strings.ToLower, sprintfGuest, String.data_append, List.map_append,
    toLower_toString]
  rfl

theorem sprintfGuest_injective : Function.Injective sprintfGuest := by
  intro a b h
  have h2 := congrArg String.data h
  simp only [sprintfGuest, String.data_append, List.append_assoc] at h2
  have h3 := List.append_cancel_left (List.append_cancel_left h2)
  have h4 := List.append_cancel_right h3
  rw [← intVal_toString a, ← intVal_toString b, h4]

theorem ID_sprintfGuest_injective : Function.Injective (fun n => ID (sprintfGuest n)) := by
  intro a b h
  simp only [ID_sprintfGuest] at h
  have h2 := congrArg String.data h
  simp only [String.data_append, List.append_assoc] at h2
  have h3 := List.append_cancel_left h2
  have h4 := List.append_cancel_right h3
  rw [← intVal_toString a, ← intVal_toString b, h4]

/-! ## One iteration of the handshake loop -/

@[simp] theorem setUser_mem_same (w : World) (u : Ref) (v : user) : (w.setUser u v).mem u = v := by
  simp [World.setUser]

@[simp] theorem setUser_srv (w : World) (u : Ref) (v : user) : (w.setUser u v).srv = w.srv := rfl

@[simp] theorem setUser_spawned (w : World) (u : Ref) (v : user) :
    (w.setUser u v).spawned = w.spawned := rfl

@[simp] theorem setUser_setUser (w : World) (u : Ref) (v v2 : user) :
    (w.setUser u v).setUser u v2 = w.setUser u v2 := by
  simp [World.setUser]

theorem setUser_mem_other (w : World) (u r : Ref) (v : user) (h : r ≠ u) :
    (w.setUser u v).mem r = w.mem r := by
  simp [World.setUser, Function.update_noteq h]

theorem handshakeLoop_error (u : Ref) (i : Nat) (identity : Identity) (w : World) (e : Error)
    (h : (w.mem u).decoder (w.mem u).reads = Except.error e) :
    server.handshakeLoop u (i + 1) identity w = (some e, w.setUser u ((w.mem u).decoded 1)) := by
  simp [server.handshakeLoop, World.onUser, user.Decode, h, World.setUser, user.decoded]

theorem handshakeLoop_skip (u : Ref) (i : Nat) (identity : Identity) (w : World) (m : Message)
    (h : (w.mem u).decoder (w.mem u).reads = Except.ok m) (hm : ¬ isUser m) :
    server.handshakeLoop u (i + 1) identity w =
      server.handshakeLoop u i (nickStep identity m) (w.setUser u ((w.mem u).decoded 1)) := by
  simp only [server.handshakeLoop, World.onUser, user.Decode, h, World.setUser, user.decoded,
    nickStep, isNick, List.replicate]
  simp only [isUser, not_and] at hm
  by_cases h1 : m.Params.length < 1
  · have : ¬ (1 ≤ m.Params.length) := by omega
    simp [h1, this]
  · have h1' : 1 ≤ m.Params.length := by omega
    by_cases h2 : m.Command = NICK
    · simp [h1, h1', h2]
    · simp [h1, h1', h2, hm h1']

theorem handshakeLoop_user (u : Ref) (i : Nat) (identity : Identity) (w : World) (m : Message)
    (h : (w.mem u).decoder (w.mem u).reads = Except.ok m) (hm : isUser m) :
    server.handshakeLoop u (i + 1) identity w =
      userOutcome w u
        (((w.mem u).decoded 1).Set
          { identity with User := m.Params.headD "", Real := m.Trailing })
        (m.Params.headD "") := by
  obtain ⟨h1, h2⟩ := hm
  have h1' : ¬ (m.Params.length < 1) := by omega
  have hUN : ¬ (USER = NICK) := by decide
  simp only [server.handshakeLoop, World.onUser, user.Decode, h, h1', h2, hUN, if_false, if_true,
    server.add, Function.update_same, user.decoded, List.replicate, server.guestNick]
  generalize user.Set _ _ = v
  unfold userOutcome
  cases hk : (w.srv.users v.ID).isSome
  · simp [hk, user.Encode, server.Prefix, welcome]
  · simp [hk, ErrHandshakeFailed]

/-! ## Registry operations -/

theorem guestNick_eq (s : server) :
    s.guestNick = (sprintfGuest (wrapInt (s.count + 1)), { s with count := wrapInt (s.count + 1) }) :=
  rfl

theorem wrapInt_eq (x : Int) (h1 : minInt ≤ x) (h2 : x ≤ maxInt) : wrapInt x = x := by
  unfold wrapInt minInt maxInt intSize at *
  norm_num at *
  omega

theorem guestNicks_spec (n : Nat) : ∀ s : server, minInt ≤ s.count → s.count + n ≤ maxInt →
    s.guestNicks n =
      ((List.range n).map (fun (i : Nat) => sprintfGuest (s.count + 1 + (i : Int))),
        { s with count := s.count + n }) := by
  induction n with
  | zero => intro s _ _; simp [server.guestNicks]
  | succ n ih =>
    intro s h1 h2
    have hw : wrapInt (s.count + 1) = s.count + 1 := by
      apply wrapInt_eq <;> (push_cast at h2; omega)
    simp only [server.guestNicks, guestNick_eq, hw]
    rw [ih _ (by show minInt ≤ s.count + 1; omega)
      (by show s.count + 1 + (n : Int) ≤ maxInt; push_cast at h2; omega)]
    simp only [List.range_succ_eq_map, List.map_cons, List.map_map]
    refine Prod.ext ?_ ?_
    · simp only [Nat.cast_zero, add_zero, List.cons.injEq, true_and]
      apply List.map_congr_left
      intro i _
      simp only [Function.comp, Nat.cast_succ]
      congr 1
      ring
    · simp only [Nat.cast_succ]
      congr 1
      ring

theorem Channel_of_HasChannel (s : server) (c : String) (h : s.HasChannel c = true) :
    ∃ ch, s.channels (ID c) = some ch ∧ s.Channel c = (ch, s) := by
  unfold server.HasChannel at h
  cases hc : s.channels (ID c) with
  | none => simp [hc] at h
  | some ch => exact ⟨ch, rfl, by simp [server.Channel, hc]⟩

theorem namesLoop_spec (s : server) (u : user) : ∀ (cs : List String) (r : List Message),
    s.namesLoop u r cs = (r ++ (cs.filter (fun c => s.HasChannel c)).map (nameReply s u), s) := by
  intro cs
  induction cs with
  | nil => intro r; simp [server.namesLoop]
  | cons c cs ih =>
    intro r
    cases h : s.HasChannel c with
    | false => simp [server.namesLoop, h, ih]
    | true =>
      obtain ⟨ch, h1, h2⟩ := Channel_of_HasChannel s c h
      simp [server.namesLoop, h, h2, ih, nameReply, h1]

theorem names_spec (s : server) (u : user) (cs : List String) :
    s.names u cs = (namesReport s u cs, s) := by
  simp only [server.names, namesLoop_spec, namesReport, List.nil_append, endOfNames]
  refine Prod.ext ?_ rfl
  simp only [List.append_cancel_left_eq, List.cons.injEq, and_true, Message.mk.injEq, true_and]
  match cs with
  | [] => simp
  | [c] => simp
  | _ :: _ :: _ => simp

/-! ## The handshake loop over several messages -/

@[simp] theorem decoded_decoder (v : user) (k : Nat) : (v.decoded k).decoder = v.decoder := rfl

@[simp] theorem decoded_encoder (v : user) (k : Nat) : (v.decoded k).encoder = v.encoder := rfl

@[simp] theorem decoded_reads (v : user) (k : Nat) : (v.decoded k).reads = v.reads + k := rfl

@[simp] theorem decoded_writes (v : user) (k : Nat) : (v.decoded k).writes = v.writes := rfl

@[simp] theorem decoded_identity (v : user) (k : Nat) : (v.decoded k).identity = v.identity := rfl

theorem decoded_decoded (v : user) (j k : Nat) : (v.decoded j).decoded k = v.decoded (j + k) := by
  simp only [user.decoded, List.replicate_add, List.append_assoc, Nat.add_assoc]

theorem decoded_zero (v : user) : v.decoded 0 = v := by
  simp [user.decoded]

theorem setUser_self (w : World) (u : Ref) : w.setUser u (w.mem u) = w := by
  simp [World.setUser]

theorem handshakeLoop_skips (u : Ref) (i : Nat) : ∀ (ms : List Message) (identity : Identity)
    (w : World),
    (∀ j (hj : j < ms.length), (w.mem u).decoder ((w.mem u).reads + j) = Except.ok ms[j]) →
    (∀ m ∈ ms, ¬ isUser m) →
    server.handshakeLoop u (i + ms.length) identity w =
      server.handshakeLoop u i (ms.foldl nickStep identity)
        (w.setUser u ((w.mem u).decoded ms.length)) := by
  intro ms
  induction ms with
  | nil =>
    intro identity w _ _
    simp [decoded_zero, setUser_self]
  | cons m ms ih =>
    intro identity w hdec hno
    have h0 : (w.mem u).decoder (w.mem u).reads = Except.ok m := by
      simpa using hdec 0 (by simp)
    have hstep := handshakeLoop_skip u (i + ms.length) identity w m h0 (hno m (by simp))
    rw [List.length_cons, ← Nat.add_assoc, hstep, ih]
    · simp [decoded_decoded, Nat.add_comm]
    · intro j hj
      have := hdec (j + 1) (by simp; omega)
      simpa [Nat.add_assoc, Nat.add_comm 1 j] using this
    · intro x hx
      exact hno x (by simp [hx])

theorem foldl_nickStep (ms : List Message) : ∀ identity : Identity,
    ms.foldl nickStep identity =
      { identity with Nick := (lastNick ms).getD identity.Nick } := by
  induction ms using List.reverseRecOn with
  | nil => intro identity; simp [lastNick]
  | append_singleton ms m ih =>
    intro identity
    rw [List.foldl_append, ih]
    simp only [List.foldl_cons, List.foldl_nil, nickStep, lastNick, List.filter_append]
    by_cases hm : isNick m
    · simp [hm, List.filter_cons]
    · simp [hm, List.filter_cons]

/-! ## Induction over the handshake loop -/

theorem Set_frame (v : user) (identity : Identity) :
    (v.Set identity).decoder = v.decoder ∧ (v.Set identity).encoder = v.encoder ∧
      (v.Set identity).reads = v.reads ∧ (v.Set identity).writes = v.writes ∧
      (v.Set identity).trace = v.trace := by
  unfold user.Set
  simp only []
  split_ifs <;> simp

theorem Set_identity (v : user) (identity : Identity) :
    (v.Set identity).identity =
      { Nick := if identity.Nick ≠ "" then identity.Nick else v.identity.Nick
        User := if identity.User ≠ "" then identity.User else v.identity.User
        Real := if identity.Real ≠ "" then identity.Real else v.identity.Real
        Host := if identity.Host ≠ "" then identity.Host else v.identity.Host } := by
  unfold user.Set
  simp only []
  split_ifs <;> simp

theorem handshakeLoop_induct (u : Ref)
    (P : Nat → Identity → World → Option Error × World → Prop)
    (h0 : ∀ identity w, P 0 identity w (some ErrHandshakeFailed, w))
    (herr : ∀ i identity w e, (w.mem u).decoder (w.mem u).reads = Except.error e →
      P (i + 1) identity w (some e, w.setUser u ((w.mem u).decoded 1)))
    (hskip : ∀ i identity w m r, (w.mem u).decoder (w.mem u).reads = Except.ok m → ¬ isUser m →
      P i (nickStep identity m) (w.setUser u ((w.mem u).decoded 1)) r → P (i + 1) identity w r)
    (huser : ∀ i identity w m, (w.mem u).decoder (w.mem u).reads = Except.ok m → isUser m →
      P (i + 1) identity w
        (userOutcome w u
          (((w.mem u).decoded 1).Set
            { identity with User := m.Params.headD "", Real := m.Trailing })
          (m.Params.headD ""))) :
    ∀ i identity w, P i identity w (server.handshakeLoop u i identity w) := by
  intro i
  induction i with
  | zero => intro identity w; exact h0 identity w
  | succ i ih =>
    intro identity w
    cases hd : (w.mem u).decoder (w.mem u).reads with
    | error e =>
      rw [handshakeLoop_error u i identity w e hd]
      exact herr i identity w e hd
    | ok m =>
      by_cases hm : isUser m
      · rw [handshakeLoop_user u i identity w m hd hm]
        exact huser i identity w m hd hm
      · rw [handshakeLoop_skip u i identity w m hd hm]
        exact hskip i identity w m _ hd hm (ih _ _)

theorem handshakeLoop_frame (u : Ref) : ∀ i identity w,
    handshakeFrame u i w (server.handshakeLoop u i identity w) := by
  apply handshakeLoop_induct u (fun i _ w r => handshakeFrame u i w r)
  · intro identity w
    simp [handshakeFrame]
  · intro i identity w e _
    refine ⟨rfl, rfl, ?_, ?_⟩
    · intro x hx; exact setUser_mem_other w u x _ hx
    · simp
  · intro i identity w m r _ _ ih
    obtain ⟨h1, h2, h3, h4, h5, h6, h7, h8, h9⟩ := ih
    refine ⟨h1, h2, ?_, ?_, ?_, ?_, ?_, h8, ?_⟩
    · intro x hx; rw [h3 x hx]; exact setUser_mem_other w u x _ hx
    · simpa using h4
    · simpa using h5
    · simp at h6; omega
    · simp at h7; omega
    · simpa using h9
  · intro i identity w m _ _
    have hs := Set_frame ((w.mem u).decoded 1)
      { identity with User := m.Params.headD "", Real := m.Trailing }
    generalize ((w.mem u).decoded 1).Set _ = v at hs ⊢
    obtain ⟨s1, s2, s3, s4, _⟩ := hs
    simp only [decoded_decoder, decoded_encoder, decoded_reads, decoded_writes] at s1 s2 s3 s4
    unfold userOutcome
    split
    · refine ⟨rfl, rfl, ?_, ?_⟩
      · intro x hx; simp [Function.update_noteq hx]
      · simp [s1, s2, s3, s4]
    · refine ⟨rfl, rfl, ?_, ?_⟩
      · intro x hx; simp [Function.update_noteq hx]
      · simp [s1, s2, s3, s4]

theorem handshakeLoop_decode_error (u : Ref) : ∀ i identity w,
    ∀ j e, (w.mem u).reads + j < ((server.handshakeLoop u i identity w).2.mem u).reads →
      (w.mem u).decoder ((w.mem u).reads + j) = Except.error e →
      (server.handshakeLoop u i identity w).1 = some e := by
  apply handshakeLoop_induct u (fun _ _ w r => ∀ j e, (w.mem u).reads + j < (r.2.mem u).reads →
      (w.mem u).decoder ((w.mem u).reads + j) = Except.error e → r.1 = some e)
  · intro identity w j e hj _
    simp only at hj
    omega
  · intro i identity w e0 hd j e hj he
    simp at hj
    have : j = 0 := by omega
    subst this
    rw [Nat.add_zero, hd] at he
    cases he
    rfl
  · intro i identity w m r hd _ ih j e hj he
    cases j with
    | zero => rw [Nat.add_zero, hd] at he; cases he
    | succ j =>
      apply ih j e
      · simp; omega
      · simpa [Nat.add_assoc, Nat.add_comm 1 j] using he
  · intro i identity w m hd _ j e hj he
    have hs := Set_frame ((w.mem u).decoded 1)
      { identity with User := m.Params.headD "", Real := m.Trailing }
    generalize ((w.mem u).decoded 1).Set _ = v at hs hj
    obtain ⟨_, _, s3, _, _⟩ := hs
    simp only [decoded_reads] at s3
    have hj0 : j = 0 := by
      unfold userOutcome at hj
      split at hj <;> (simp [s3] at hj; omega)
    subst hj0
    rw [Nat.add_zero, hd] at he
    cases he

theorem handshakeLoop_failure (u : Ref) : ∀ i identity w,
    ∀ e, (server.handshakeLoop u i identity w).1 = some e →
      (((server.handshakeLoop u i identity w).2.mem u).writes = (w.mem u).writes →
        (server.handshakeLoop u i identity w).2.srv.users = w.srv.users) ∧
      (((server.handshakeLoop u i identity w).2.mem u).writes ≠ (w.mem u).writes →
        (w.mem u).encoder (w.mem u).writes = some e ∧
        w.srv.users (ID ((server.handshakeLoop u i identity w).2.mem u).Nick) = none ∧
        (server.handshakeLoop u i identity w).2.srv.users =
          Function.update w.srv.users
            (ID ((server.handshakeLoop u i identity w).2.mem u).Nick) (some u)) := by
  apply handshakeLoop_induct u (fun _ _ w r => ∀ e, r.1 = some e →
      ((r.2.mem u).writes = (w.mem u).writes → r.2.srv.users = w.srv.users) ∧
      ((r.2.mem u).writes ≠ (w.mem u).writes →
        (w.mem u).encoder (w.mem u).writes = some e ∧
        w.srv.users (ID (r.2.mem u).Nick) = none ∧
        r.2.srv.users = Function.update w.srv.users (ID (r.2.mem u).Nick) (some u)))
  · intro identity w e _
    simp
  · intro i identity w e0 _ e _
    simp
  · intro i identity w m r _ _ ih e he
    simpa using ih e he
  · intro i identity w m _ _ e he
    have hs := Set_frame ((w.mem u).decoded 1)
      { identity with User := m.Params.headD "", Real := m.Trailing }
    generalize ((w.mem u).decoded 1).Set _ = v at hs he ⊢
    obtain ⟨_, s2, _, s4, _⟩ := hs
    simp only [decoded_encoder, decoded_writes] at s2 s4
    unfold userOutcome at he ⊢
    split at he
    · rename_i hk
      simp [hk, s4]
    · rename_i hk
      simp only [hk] at he ⊢
      simp only [Bool.not_eq_true, Option.not_isSome, Option.isNone_iff_eq_none] at hk
      simp [s4, s2] at he ⊢
      exact ⟨he, hk, rfl⟩

theorem handshakeLoop_keysAgree (u : Ref) : ∀ i identity w,
    w.keysAgree → w.unregistered u → (server.handshakeLoop u i identity w).2.keysAgree := by
  apply handshakeLoop_induct u (fun _ _ w r => w.keysAgree → w.unregistered u → r.2.keysAgree)
  · intro identity w h _
    exact h
  · intro i identity w e _ h hu k s hk
    have hs : s ≠ u := fun hsu => hu k (hsu ▸ hk)
    rw [setUser_mem_other w u s _ hs]
    exact h k s hk
  · intro i identity w m r _ _ ih h hu
    apply ih
    · intro k s hk
      have hs : s ≠ u := fun hsu => hu k (hsu ▸ hk)
      rw [setUser_mem_other w u s _ hs]
      exact h k s hk
    · exact hu
  · intro i identity w m _ _ h hu
    generalize ((w.mem u).decoded 1).Set _ = v
    unfold userOutcome
    split
    · intro k s hk
      have hs : s ≠ u := fun hsu => hu k (hsu ▸ hk)
      simp only [Function.update_noteq hs]
      exact h k s hk
    · intro k s hk
      simp only at hk
      by_cases hkv : k = v.ID
      · subst hkv
        simp only [Function.update_same] at hk
        cases hk
        simp [user.Nick, user.ID, Identity.ID, ID]
      · rw [Function.update_noteq hkv] at hk
        have hs : s ≠ u := fun hsu => hu k (hsu ▸ hk)
        simp only [Function.update_noteq hs]
        exact h k s hk

/-! ## The dispatch loop -/

theorem quiet_refl (w : World) : w.quiet w := ⟨rfl, rfl, fun _ => rfl⟩

theorem quiet_trans {w w2 w3 : World} (h1 : w.quiet w2) (h2 : w2.quiet w3) : w.quiet w3 :=
  ⟨h2.1.trans h1.1, h2.2.1.trans h1.2.1, fun x => (h2.2.2 x).trans (h1.2.2 x)⟩

theorem EncodeMany_identity (msgs : List Message) : ∀ v : user,
    (v.EncodeMany msgs).2.identity = v.identity := by
  induction msgs with
  | nil => intro v; rfl
  | cons m ms ih =>
    intro v
    simp only [user.EncodeMany, user.Encode]
    cases v.encoder v.writes with
    | none => simp only []; rw [ih]
    | some e => rfl

theorem onUser_quiet {α : Type} (w : World) (u : Ref) (f : user → α × user)
    (hf : ∀ v, (f v).2.identity = v.identity) : w.quiet (w.onUser u f).2 := by
  refine ⟨rfl, rfl, ?_⟩
  intro x
  simp only [World.onUser]
  by_cases hx : x = u
  · subst hx; simp [hf]
  · simp [Function.update_noteq hx]

theorem send_quiet (u : Ref) (w1 : World) (f : user → Option Error × user)
    (hf : ∀ v, (f v).2.identity = v.identity) (k : World → Status × World)
    (hk : ∀ w2 : World, w2.quiet (k w2).2) :
    w1.quiet (match w1.onUser u f with
      | (some _, w) => (Status.returned, w)
      | (none, w) => k w).2 := by
  have h2 := onUser_quiet w1 u f hf
  generalize w1.onUser u f = d2 at h2 ⊢
  obtain ⟨r2, w2⟩ := d2
  cases r2 with
  | some e => exact h2
  | none => exact quiet_trans h2 (hk w2)

theorem handleLoop_quiet (u : Ref) : ∀ (fuel : Nat) (w : World),
    w.quiet (server.handleLoop u fuel w).2 := by
  intro fuel
  induction fuel with
  | zero => intro w; exact quiet_refl w
  | succ fuel ih =>
    intro w
    have hdec : w.quiet (w.onUser u user.Decode).2 := onUser_quiet w u _ (fun _ => rfl)
    unfold server.handleLoop
    generalize w.onUser u user.Decode = d at hdec
    obtain ⟨r, w1⟩ := d
    simp only at hdec
    cases r with
    | error e => exact hdec
    | ok m =>
      simp only
      split_ifs
      · exact hdec
      · exact quiet_trans hdec (send_quiet u w1 _ (fun _ => rfl) _ ih)
      · exact quiet_trans hdec (send_quiet u w1 _ (fun _ => rfl) _ ih)
      · exact quiet_trans hdec (ih w1)
      · rw [names_spec]
        exact quiet_trans hdec (send_quiet u w1 _ (fun v => EncodeMany_identity _ v) _ ih)
      · exact quiet_trans hdec (ih w1)
      · exact quiet_trans hdec (ih w1)

theorem handle_quiet (u : Ref) (fuel : Nat) (w : World) : w.quiet (server.handle fuel w u).2 := by
  have h := handleLoop_quiet u fuel w
  unfold server.handle
  generalize server.handleLoop u fuel w = d at h ⊢
  obtain ⟨st, w1⟩ := d
  cases st with
  | running => exact h
  | returned => exact quiet_trans h (onUser_quiet w1 u (fun v => ((), v.Close)) (fun _ => rfl))

theorem quiet_keysAgree {w w2 : World} (h : w.quiet w2) (hk : w.keysAgree) : w2.keysAgree := by
  intro k s hks
  rw [h.1] at hks
  have := hk k s hks
  simpa [user.Nick, h.2.2 s] using this

theorem quiet_unregistered {w w2 : World} (h : w.quiet w2) (u : Ref) (hu : w.unregistered u) :
    w2.unregistered u := by
  intro k
  rw [h.1]
  exact hu k

/-! ## Whole handshakes and sequences of calls -/

theorem handshakeLoop_exhaust (u : Ref) : ∀ (i : Nat) (identity : Identity) (w : World),
    (∀ j, j < i → ∃ m, (w.mem u).decoder ((w.mem u).reads + j) = Except.ok m ∧ ¬ isUser m) →
    server.handshakeLoop u i identity w =
      (some ErrHandshakeFailed, w.setUser u ((w.mem u).decoded i)) := by
  intro i
  induction i with
  | zero =>
    intro identity w _
    simp [server.handshakeLoop, decoded_zero, setUser_self]
  | succ i ih =>
    intro identity w h
    obtain ⟨m, hm, hno⟩ := h 0 (by omega)
    rw [Nat.add_zero] at hm
    rw [handshakeLoop_skip u i identity w m hm hno, ih]
    · simp [decoded_decoded, Nat.add_comm]
    · intro j hj
      obtain ⟨m2, hm2, hno2⟩ := h (j + 1) (by omega)
      exact ⟨m2, by simpa [Nat.add_assoc, Nat.add_comm 1 j] using hm2, hno2⟩

theorem Join_world (w : World) (u : Ref) :
    (server.Join w u).2.srv = (server.handshake w u).2.srv ∧
    (server.Join w u).2.mem = (server.handshake w u).2.mem := by
  unfold server.Join
  generalize server.handshake w u = r
  obtain ⟨r1, w1⟩ := r
  cases r1 <;> exact ⟨rfl, rfl⟩

theorem handshake_count (w : World) (u : Ref) (h1 : minInt ≤ w.srv.count)
    (h2 : w.srv.count < maxInt) : w.srv.count ≤ (server.handshake w u).2.srv.count := by
  have hf := (handshakeLoop_frame u 5 { Nick := "", User := "", Real := "", Host := "" }
    w).2.2.2.2.2.2.2.1
  unfold server.handshake
  rcases hf with hf | hf
  · rw [hf]
  · rw [hf, wrapInt_eq _ (by omega) (by omega)]
    omega

theorem call_keysAgree (w : World) (c : Call) (hk : w.keysAgree) (hf : c.fresh w) :
    (c.run w).keysAgree := by
  cases c with
  | Join u =>
    have h := handshakeLoop_keysAgree u 5 { Nick := "", User := "", Real := "", Host := "" } w hk hf
    intro k s hks
    simp only [Call.run, (Join_world w u).1, (Join_world w u).2] at hks ⊢
    exact h k s hks
  | handshake u =>
    exact handshakeLoop_keysAgree u 5 _ w hk hf
  | handle fuel u =>
    exact quiet_keysAgree (handle_quiet u fuel w) hk

theorem runCalls_keysAgree (cs : List Call) : ∀ w : World, w.keysAgree → freshCalls w cs →
    (runCalls w cs).keysAgree := by
  induction cs with
  | nil => intro w hk _; exact hk
  | cons c cs ih =>
    intro w hk hf
    exact ih (c.run w) (call_keysAgree w c hk hf.1) hf.2

/-! ## One iteration of the dispatch loop, identities, and growth of the registry -/

theorem EncodeMany_nil (v : user) : v.EncodeMany [] = (none, v) := rfl

theorem EncodeMany_cons (v : user) (m : Message) (ms : List Message) :
    v.EncodeMany (m :: ms) =
      match v.encoder v.writes with
      | some e => (some e, v.sent m false)
      | none => (v.sent m true).EncodeMany ms := by
  simp only [user.EncodeMany, user.Encode, user.sent]
  cases v.encoder v.writes <;> rfl

theorem handleLoop_zero (u : Ref) (w : World) :
    server.handleLoop u 0 w = (Status.running, w) := rfl

theorem handleLoop_error (u : Ref) (fuel : Nat) (w : World) (e : Error)
    (hd : (w.mem u).decoder (w.mem u).reads = Except.error e) :
    server.handleLoop u (fuel + 1) w = (Status.returned, w.setUser u ((w.mem u).decoded 1)) := by
  simp [server.handleLoop, World.onUser, user.Decode, hd, World.setUser, user.decoded]

theorem handleLoop_quit (u : Ref) (fuel : Nat) (w : World) (m : Message)
    (hd : (w.mem u).decoder (w.mem u).reads = Except.ok m) (hq : m.Command = QUIT) :
    server.handleLoop u (fuel + 1) w = (Status.returned, w.setUser u ((w.mem u).decoded 1)) := by
  simp [server.handleLoop, World.onUser, user.Decode, hd, hq, World.setUser, user.decoded]

theorem handleLoop_step (u : Ref) (fuel : Nat) (w : World) (m : Message)
    (hd : (w.mem u).decoder (w.mem u).reads = Except.ok m) (hq : m.Command ≠ QUIT) :
    server.handleLoop u (fuel + 1) w =
      match ((w.mem u).decoded 1).EncodeMany (replies w.srv ((w.mem u).decoded 1) m) with
      | (some _, v) => (Status.returned, w.setUser u v)
      | (none, v) => server.handleLoop u fuel (w.setUser u v) := by
  have hPJ : ¬ (JOIN = PING) := by decide
  have hPN : ¬ (NAMES = PING) := by decide
  have hJN : ¬ (NAMES = JOIN) := by decide
  simp only [server.handleLoop, World.onUser, user.Decode, hd, hq, if_false]
  by_cases h1 : m.Command = PING
  · simp only [h1, if_true, replies, EncodeMany_cons, EncodeMany_nil, user.Encode,
      Function.update_same, Function.update_idem, server.Prefix, decoded_encoder, decoded_writes]
    cases he : (w.mem u).encoder (w.mem u).writes <;>
      simp [user.sent, user.decoded, World.setUser, pong]
  · by_cases h2 : m.Command = JOIN
    · simp only [h1, h2, if_true, if_false, hPJ, replies, EncodeMany_cons, EncodeMany_nil,
        user.Encode, Function.update_same, Function.update_idem, server.Prefix, decoded_encoder,
        decoded_writes]
      cases he : (w.mem u).encoder (w.mem u).writes <;>
        simp [user.sent, user.decoded, World.setUser, inviteOnly]
    · by_cases h3 : m.Command = NAMES
      · by_cases h4 : m.Params.length < 1
        · have h5 : ¬ (1 ≤ m.Params.length) := by omega
          simp only [h1, h2, h3, h4, h5, if_true, if_false, hPN, hJN, replies, and_false,
            EncodeMany_nil]
          rfl
        · have h5 : 1 ≤ m.Params.length := by omega
          simp only [h1, h2, h3, h4, h5, if_true, if_false, hPN, hJN, replies, and_self,
            names_spec, Function.update_same, Function.update_idem, user.decoded, List.replicate,
            World.setUser]
          generalize user.EncodeMany _ _ = x
          obtain ⟨r, v⟩ := x
          cases r <;> rfl
      · by_cases h4 : m.Command = PRIVMSG
        · simp only [h1, h2, h3, h4, if_true, if_false, replies, false_and, EncodeMany_nil]
          rfl
        · simp only [h1, h2, h3, h4, if_false, replies, false_and, EncodeMany_nil]
          rfl

theorem EncodeMany_frame (msgs : List Message) : ∀ v : user,
    (v.EncodeMany msgs).2.identity = v.identity ∧
    (v.EncodeMany msgs).2.decoder = v.decoder ∧
    (v.EncodeMany msgs).2.encoder = v.encoder ∧
    (v.EncodeMany msgs).2.reads = v.reads := by
  induction msgs with
  | nil => intro v; exact ⟨rfl, rfl, rfl, rfl⟩
  | cons m ms ih =>
    intro v
    rw [EncodeMany_cons]
    cases v.encoder v.writes with
    | none => exact ih (v.sent m true)
    | some e => exact ⟨rfl, rfl, rfl, rfl⟩

theorem EncodeMany_ok (msgs : List Message) : ∀ v : user, (v.EncodeMany msgs).1 = none →
    (v.EncodeMany msgs).2.trace = v.trace ++ msgs.map (fun m => Effect.encode m true) ∧
    (v.EncodeMany msgs).2.writes = v.writes + msgs.length ∧
    (∀ i, i < msgs.length → v.encoder (v.writes + i) = none) := by
  induction msgs with
  | nil => intro v _; simp [EncodeMany_nil]
  | cons m ms ih =>
    intro v h
    rw [EncodeMany_cons] at h ⊢
    cases he : v.encoder v.writes with
    | some e => simp [he] at h
    | none =>
      simp only [he] at h ⊢
      obtain ⟨h1, h2, h3⟩ := ih (v.sent m true) h
      refine ⟨by rw [h1]; simp [user.sent], by rw [h2]; simp [user.sent]; omega, ?_⟩
      intro i hi
      cases i with
      | zero => simpa using he
      | succ i =>
        have := h3 i (by simp at hi; omega)
        simpa [user.sent, Nat.add_assoc, Nat.add_comm 1 i] using this

theorem EncodeMany_fail (msgs : List Message) : ∀ (v : user) (e : Error),
    (v.EncodeMany msgs).1 = some e →
    ∃ pre m post, msgs = pre ++ m :: post ∧
      (v.EncodeMany msgs).2.trace =
        v.trace ++ pre.map (fun m => Effect.encode m true) ++ [Effect.encode m false] ∧
      (v.EncodeMany msgs).2.writes = v.writes + pre.length + 1 ∧
      v.encoder (v.writes + pre.length) = some e ∧
      (∀ i, i < pre.length → v.encoder (v.writes + i) = none) := by
  induction msgs with
  | nil => intro v e h; simp [EncodeMany_nil] at h
  | cons m ms ih =>
    intro v e h
    rw [EncodeMany_cons] at h ⊢
    cases he : v.encoder v.writes with
    | some e1 =>
      simp only [he] at h ⊢
      cases h
      exact ⟨[], m, ms, rfl, by simp [user.sent], by simp [user.sent], by simpa using he,
        by simp⟩
    | none =>
      simp only [he] at h ⊢
      obtain ⟨pre, m2, post, h1, h2, h3, h4, h5⟩ := ih (v.sent m true) e h
      refine ⟨m :: pre, m2, post, by simp [h1], by rw [h2]; simp [user.sent],
        by rw [h3]; simp [user.sent]; omega, ?_, ?_⟩
      · simpa [user.sent, Nat.add_assoc, Nat.add_comm 1 pre.length] using h4
      · intro i hi
        cases i with
        | zero => simpa using he
        | succ i =>
          have := h5 i (by simp at hi; omega)
          simpa [user.sent, Nat.add_assoc, Nat.add_comm 1 i] using this

theorem handleLoop_shape (u : Ref) : ∀ (fuel : Nat) (w : World),
    ∃ effs, loopShape (w.mem u) ((server.handleLoop u fuel w).2.mem u)
      (server.handleLoop u fuel w).1 effs := by
  intro fuel
  induction fuel with
  | zero =>
    intro w
    exact ⟨[], by simp [handleLoop_zero, loopShape]⟩
  | succ fuel ih =>
    intro w
    cases hd : (w.mem u).decoder (w.mem u).reads with
    | error e =>
      rw [handleLoop_error u fuel w e hd]
      refine ⟨[Effect.decode], by simp [user.decoded], by simp, by simp, by simp, ?_⟩
      intro _
      refine ⟨by simp, Or.inl ⟨by simp, Or.inl ⟨e, by simpa using hd⟩⟩⟩
    | ok m =>
      by_cases hq : m.Command = QUIT
      · rw [handleLoop_quit u fuel w m hd hq]
        refine ⟨[Effect.decode], by simp [user.decoded], by simp, by simp, by simp, ?_⟩
        intro _
        refine ⟨by simp, Or.inl ⟨by simp, Or.inr ⟨m, by simpa using hd, hq⟩⟩⟩
      · rw [handleLoop_step u fuel w m hd hq]
        have hf := EncodeMany_frame (replies w.srv ((w.mem u).decoded 1) m) ((w.mem u).decoded 1)
        have hok := EncodeMany_ok (replies w.srv ((w.mem u).decoded 1) m) ((w.mem u).decoded 1)
        have hfail := EncodeMany_fail (replies w.srv ((w.mem u).decoded 1) m)
          ((w.mem u).decoded 1)
        generalize ((w.mem u).decoded 1).EncodeMany _ = x at hf hok hfail
        obtain ⟨r, v⟩ := x
        obtain ⟨_, f2, _, f4⟩ := hf
        simp only [decoded_decoder, decoded_reads] at f2 f4
        cases r with
        | some e =>
          obtain ⟨pre, m2, post, _, t1, _⟩ := hfail e rfl
          dsimp only at t1 ⊢
          refine ⟨Effect.decode :: (pre.map (fun m => Effect.encode m true) ++
            [Effect.encode m2 false]), ?_, ?_, ?_, ?_, ?_⟩
          · simp only [setUser_mem_same, t1, user.decoded, List.replicate]
            simp
          · simp
          · simpa using f2
          · simp [f4]
          · intro _
            refine ⟨by simp [f4], Or.inr ⟨⟨m2, ?_⟩, m, ?_, hq⟩⟩
            · rw [← List.cons_append, List.getLast?_append_of_ne_nil _ (by simp)]
              rfl
            · simpa [f4] using hd
        | none =>
          obtain ⟨t1, _⟩ := hok rfl
          obtain ⟨effs, e1, e2, e3, e4, e5⟩ := ih (w.setUser u v)
          simp only [setUser_mem_same] at e1 e3 e4 e5
          dsimp only at t1 ⊢
          refine ⟨Effect.decode :: ((replies w.srv ((w.mem u).decoded 1) m).map
            (fun m => Effect.encode m true) ++ effs), ?_, ?_, ?_, ?_, ?_⟩
          · simp only [e1, t1, user.decoded, List.replicate]
            simp
          · simp [e2]
          · rw [e3, f2]
          · omega
          · intro hst
            obtain ⟨g1, g2⟩ := e5 hst
            rw [f2] at g2
            refine ⟨by omega, ?_⟩
            have hne : effs ≠ [] := by
              rcases g2 with ⟨g, _⟩ | ⟨⟨_, g⟩, _⟩ <;> (intro h0; simp [h0] at g)
            have hlast : ∀ (pre : List Effect), (pre ++ effs).getLast? = effs.getLast? := by
              intro pre
              exact List.getLast?_append_of_ne_nil pre hne
            have hl := hlast (Effect.decode :: (replies w.srv ((w.mem u).decoded 1) m).map
              (fun m => Effect.encode m true))
            simp only [List.cons_append] at hl
            rw [hl]
            exact g2

theorem handleLoop_send_one (u : Ref) (fuel : Nat) (w : World) (m reply : Message)
    (hd : (w.mem u).decoder (w.mem u).reads = Except.ok m) (hq : m.Command ≠ QUIT)
    (hr : replies w.srv ((w.mem u).decoded 1) m = [reply]) :
    ((w.mem u).encoder (w.mem u).writes = none →
      server.handleLoop u (fuel + 1) w =
        server.handleLoop u fuel (w.setUser u (((w.mem u).decoded 1).sent reply true))) ∧
    (∀ e, (w.mem u).encoder (w.mem u).writes = some e →
      server.handleLoop u (fuel + 1) w =
        (Status.returned, w.setUser u (((w.mem u).decoded 1).sent reply false))) := by
  rw [handleLoop_step u fuel w m hd hq, hr, EncodeMany_cons]
  simp only [decoded_encoder, decoded_writes]
  constructor
  · intro he
    simp [he, EncodeMany_nil]
  · intro e he
    simp [he]

theorem handleLoop_returns (u : Ref) : ∀ (j fuel : Nat) (w : World), j < fuel →
    ((∃ e, (w.mem u).decoder ((w.mem u).reads + j) = Except.error e) ∨
      (∃ m, (w.mem u).decoder ((w.mem u).reads + j) = Except.ok m ∧ m.Command = QUIT)) →
    (server.handleLoop u fuel w).1 = Status.returned := by
  intro j
  induction j with
  | zero =>
    intro fuel w hj h
    obtain ⟨f, rfl⟩ : ∃ f, fuel = f + 1 := ⟨fuel - 1, by omega⟩
    rcases h with ⟨e, he⟩ | ⟨m, hm, hq⟩
    · rw [handleLoop_error u f w e (by simpa using he)]
    · rw [handleLoop_quit u f w m (by simpa using hm) hq]
  | succ j ih =>
    intro fuel w hj h
    obtain ⟨f, rfl⟩ : ∃ f, fuel = f + 1 := ⟨fuel - 1, by omega⟩
    cases hd : (w.mem u).decoder (w.mem u).reads with
    | error e => rw [handleLoop_error u f w e hd]
    | ok m =>
      by_cases hq : m.Command = QUIT
      · rw [handleLoop_quit u f w m hd hq]
      · rw [handleLoop_step u f w m hd hq]
        have hf := EncodeMany_frame (replies w.srv ((w.mem u).decoded 1) m) ((w.mem u).decoded 1)
        generalize ((w.mem u).decoded 1).EncodeMany _ = x at hf
        obtain ⟨r, v⟩ := x
        obtain ⟨_, f2, _, f4⟩ := hf
        simp only [decoded_decoder, decoded_reads] at f2 f4
        cases r with
        | some e => rfl
        | none =>
          apply ih f (w.setUser u v) (by omega)
          simp only [setUser_mem_same, f2, f4]
          simpa [Nat.add_assoc, Nat.add_comm 1 j] using h

theorem namesReport_congr (s : server) (v v2 : user) (cs : List String) (h : v.Nick = v2.Nick) :
    namesReport s v cs = namesReport s v2 cs := by
  simp only [namesReport, endOfNames, h]
  congr 1
  apply List.map_congr_left
  intro c _
  simp only [nameReply, h]

theorem Set_eq (v : user) (upd : Identity) :
    v.Set upd =
      { v with identity :=
          { Nick := if upd.Nick ≠ "" then upd.Nick else v.identity.Nick
            User := if upd.User ≠ "" then upd.User else v.identity.User
            Real := if upd.Real ≠ "" then upd.Real else v.identity.Real
            Host := if upd.Host ≠ "" then upd.Host else v.identity.Host } } := by
  obtain ⟨s1, s2, s3, s4, s5⟩ := Set_frame v upd
  have hid := Set_identity v upd
  generalize v.Set upd = x at s1 s2 s3 s4 s5 hid
  obtain ⟨xi, xd, xe, xr, xw, xt⟩ := x
  simp only at s1 s2 s3 s4 s5 hid
  subst s1 s2 s3 s4 s5 hid
  rfl

theorem toLower_caseVariant (x y : Char) (h : caseVariant x y) :
    unicode.ToLower x = unicode.ToLower y := by
  rcases h with h | h | h
  · rw [h]
  · rw [h, unicode_ToLower_idem]
  · rw [h, unicode_ToLower_idem]

theorem map_toLower_caseVariant (xs ys : List Char) (h : List.Forall₂ caseVariant xs ys) :
    xs.map unicode.ToLower = ys.map unicode.ToLower := by
  induction h with
  | nil => rfl
  | cons hxy _ ih => simp [toLower_caseVariant _ _ hxy, ih]

theorem keeps_refl (s : server) : s.keeps s := ⟨fun _ _ h => h, fun _ _ h => h⟩

theorem keeps_insert (s s2 : server) (k : String) (x : Ref) (hk : s.users k = none)
    (hu : s2.users = Function.update s.users k (some x)) (hc : s2.channels = s.channels) :
    s.keeps s2 := by
  refine ⟨?_, ?_⟩
  · intro k2 y hy
    have hne : k2 ≠ k := by
      intro h0
      rw [h0, hk] at hy
      cases hy
    rw [hu, Function.update_noteq hne]
    exact hy
  · intro k2 c h
    rw [hc]
    exact h

theorem add_keeps (w : World) (u : Ref) : w.srv.keeps (server.add w u).2.srv := by
  cases h : w.srv.users (w.mem u).ID with
  | none =>
    have hadd : server.add w u = (true, { w with srv := { w.srv with
        users := Function.update w.srv.users (w.mem u).ID (some u) } }) := by
      simp [server.add, h]
    rw [hadd]
    exact keeps_insert _ _ _ u h rfl rfl
  | some s =>
    have hadd : server.add w u = (false, w) := by
      simp [server.add, h]
    rw [hadd]
    exact keeps_refl _

theorem wrapInt_succ_le (c : Int) (h : minInt ≤ c) : wrapInt (c + 1) ≤ c + 1 := by
  unfold wrapInt minInt intSize at *
  norm_num at *
  omega

theorem handshakeLoop_users (u : Ref) : ∀ i identity w,
    (server.handshakeLoop u i identity w).2.srv.users = w.srv.users ∨
    ∃ k, w.srv.users k = none ∧
      (server.handshakeLoop u i identity w).2.srv.users =
        Function.update w.srv.users k (some u) := by
  apply handshakeLoop_induct u (fun _ _ w r => r.2.srv.users = w.srv.users ∨
    ∃ k, w.srv.users k = none ∧ r.2.srv.users = Function.update w.srv.users k (some u))
  · intro identity w
    exact Or.inl rfl
  · intro i identity w e _
    exact Or.inl rfl
  · intro i identity w m r _ _ ih
    simpa using ih
  · intro i identity w m _ _
    generalize ((w.mem u).decoded 1).Set _ = v
    unfold userOutcome
    split
    · exact Or.inl rfl
    · rename_i hk
      simp only [Bool.not_eq_true, Option.not_isSome, Option.isNone_iff_eq_none] at hk
      exact Or.inr ⟨v.ID, hk, rfl⟩

/-! # The claims -/

/-- C1 (the code at the scenario of the claim): the first client registers as `bob`; for
the second client the id `bob` is taken, the guest nick that is minted is free and its
welcome encode would succeed, and yet `handshake` returns `ErrHandshakeFailed`, the session
keeps the nick `bob`, and `users` has no entry for the guest nick. -/
theorem guest_fallback_scenario :
    (server.Join bobWorld 0).1 = none ∧
    bobJoined.srv.users "bob" = some 0 ∧
    (bobJoined.srv.guestNick).1 = "Guest%!s(int=1)" ∧
    bobJoined.srv.users (ID (bobJoined.srv.guestNick).1) = none ∧
    (bobJoined.mem 1).encoder (bobJoined.mem 1).writes = none ∧
    (server.handshake bobJoined 1).1 = some ErrHandshakeFailed ∧
    ((server.handshake bobJoined 1).2.mem 1).Nick = "bob" ∧
    (server.handshake bobJoined 1).2.srv.users (ID (bobJoined.srv.guestNick).1) = none ∧
    (server.handshake bobJoined 1).2.srv.users "bob" = some 0 ∧
    (server.handshake bobJoined 1).2.srv.count = 1 := by
  decide

/-- C2 (counterexample): a client sends `NICK bob`, `USER bob ...` and its transport rejects
the welcome reply. `Join` returns that encode error, and yet `users` has gained the binding
`bob`, which it did not have before. -/
theorem join_encode_error_registers :
    (server.Join brokenWorld 0).1 = some (Error.other "broken pipe") ∧
    brokenWorld.srv.users "bob" = none ∧
    (server.Join brokenWorld 0).2.srv.users "bob" = some 0 ∧
    (server.Join brokenWorld 0).2.spawned = [] := by
  decide

/-- C2 (amended): when `Join` returns an error it is the error of `handshake`, with the
world `handshake` left, and no dispatch loop has been started. If the welcome reply was not
attempted (no encode happened) `users` is as before the call; if it was attempted, the
error is that encode's error and `users` is the old mapping extended by the binding of the
session under the id of its nick, which was free. -/
theorem join_failure (w : World) (u : Ref) (e : Error) (h : (server.Join w u).1 = some e) :
    server.Join w u = server.handshake w u ∧
    (server.Join w u).2.spawned = w.spawned ∧
    (((server.Join w u).2.mem u).writes = (w.mem u).writes →
      (server.Join w u).2.srv.users = w.srv.users) ∧
    (((server.Join w u).2.mem u).writes ≠ (w.mem u).writes →
      (w.mem u).encoder (w.mem u).writes = some e ∧
      w.srv.users (ID ((server.Join w u).2.mem u).Nick) = none ∧
      (server.Join w u).2.srv.users =
        Function.update w.srv.users (ID ((server.Join w u).2.mem u).Nick) (some u)) := by
  have hj : server.Join w u = server.handshake w u := by
    unfold server.Join at h ⊢
    generalize server.handshake w u = r at h ⊢
    obtain ⟨r1, w1⟩ := r
    cases r1 with
    | none => simp at h
    | some e1 => rfl
  rw [hj] at h ⊢
  have hf := handshakeLoop_frame u 5 { Nick := "", User := "", Real := "", Host := "" } w
  have hx := handshakeLoop_failure u 5 { Nick := "", User := "", Real := "", Host := "" } w e h
  exact ⟨rfl, hf.1, hx.1, hx.2⟩

/-- C2 (witness): the amended statement at the client whose welcome reply fails. -/
theorem join_failure_witness :
    (server.Join brokenWorld 0).1 = some (Error.other "broken pipe") ∧
    (server.Join brokenWorld 0).2.spawned = brokenWorld.spawned ∧
    (((server.Join brokenWorld 0).2.mem 0).writes ≠ (brokenWorld.mem 0).writes →
      (brokenWorld.mem 0).encoder (brokenWorld.mem 0).writes = some (Error.other "broken pipe") ∧
      brokenWorld.srv.users (ID ((server.Join brokenWorld 0).2.mem 0).Nick) = none ∧
      (server.Join brokenWorld 0).2.srv.users =
        Function.update brokenWorld.srv.users (ID ((server.Join brokenWorld 0).2.mem 0).Nick)
          (some 0)) :=
  ⟨by decide,
    (join_failure brokenWorld 0 (Error.other "broken pipe") (by decide)).2.1,
    (join_failure brokenWorld 0 (Error.other "broken pipe") (by decide)).2.2.2⟩

/-- C3 (counterexample): the first decode of a client fails with `io.EOF`; `handshake`
returns `io.EOF`, which is not `ErrHandshakeFailed`. -/
theorem handshake_returns_eof :
    (silentWorld.mem 0).decoder (silentWorld.mem 0).reads = Except.error (Error.other "EOF") ∧
    (server.handshake silentWorld 0).1 = some (Error.other "EOF") ∧
    (server.handshake silentWorld 0).1 ≠ some ErrHandshakeFailed :=
  ⟨rfl, by decide, by decide⟩

/-- C3 (amended): if any of the decodes that `handshake` performs (the `j`-th, counted from
0) returns an error `e`, then `handshake` returns that error `e`. -/
theorem handshake_decode_error (w : World) (u : Ref) (j : Nat) (e : Error)
    (hj : (w.mem u).reads + j < ((server.handshake w u).2.mem u).reads)
    (he : (w.mem u).decoder ((w.mem u).reads + j) = Except.error e) :
    (server.handshake w u).1 = some e :=
  handshakeLoop_decode_error u 5 _ w j e hj he

/-- C3 (witness): the amended statement at the client whose first decode fails. -/
theorem handshake_decode_error_witness :
    (silentWorld.mem 0).reads + 0 < ((server.handshake silentWorld 0).2.mem 0).reads ∧
    (silentWorld.mem 0).decoder ((silentWorld.mem 0).reads + 0) =
      Except.error (Error.other "EOF") ∧
    (server.handshake silentWorld 0).1 = some (Error.other "EOF") :=
  ⟨by decide, rfl,
    handshake_decode_error silentWorld 0 0 (Error.other "EOF") (by decide) rfl⟩

/-- C4: `handshake` performs at most 5 decodes; and if the next 5 inbound messages all
decode successfully and none is a USER command with at least one parameter, `handshake`
returns `ErrHandshakeFailed` after exactly 5 decodes, its only transport actions are those
5 decodes (nothing is sent), and the registry (`users`, `channels`, guest counter), the
other sessions and the started loops are as before. -/
theorem handshake_budget (w : World) (u : Ref) :
    ((server.handshake w u).2.mem u).reads ≤ (w.mem u).reads + 5 ∧
    ((∀ j, j < 5 → ∃ m, (w.mem u).decoder ((w.mem u).reads + j) = Except.ok m ∧ ¬ isUser m) →
      (server.handshake w u).1 = some ErrHandshakeFailed ∧
      ((server.handshake w u).2.mem u).reads = (w.mem u).reads + 5 ∧
      ((server.handshake w u).2.mem u).writes = (w.mem u).writes ∧
      ((server.handshake w u).2.mem u).trace =
        (w.mem u).trace ++ List.replicate 5 Effect.decode ∧
      ((server.handshake w u).2.mem u).identity = (w.mem u).identity ∧
      (server.handshake w u).2.srv = w.srv ∧
      (server.handshake w u).2.spawned = w.spawned ∧
      (∀ x, x ≠ u → (server.handshake w u).2.mem x = w.mem x)) := by
  refine ⟨(handshakeLoop_frame u 5 _ w).2.2.2.2.2.2.1, ?_⟩
  intro h
  unfold server.handshake
  rw [handshakeLoop_exhaust u 5 _ w h]
  refine ⟨rfl, by simp, by simp, by simp [user.decoded], by simp, rfl, rfl, ?_⟩
  intro x hx
  exact setUser_mem_other w u x _ hx

/-- C4 (witness): the budget statement at a client sending NICK, a USER without parameters,
PING, an unknown command and NICK. -/
theorem handshake_budget_witness :
    (server.handshake chattyWorld 0).1 = some ErrHandshakeFailed ∧
    ((server.handshake chattyWorld 0).2.mem 0).reads = (chattyWorld.mem 0).reads + 5 ∧
    ((server.handshake chattyWorld 0).2.mem 0).writes = (chattyWorld.mem 0).writes :=
  have h := (handshake_budget chattyWorld 0).2 (by
    intro j hj
    interval_cases j
    · exact ⟨msg NICK ["bob"] "", rfl, by decide⟩
    · exact ⟨msg USER [] "Bob Real", rfl, by decide⟩
    · exact ⟨msg PING [] "x", rfl, by decide⟩
    · exact ⟨msg "CAP" ["LS"] "", rfl, by decide⟩
    · exact ⟨msg NICK ["rob"] "", rfl, by decide⟩)
  ⟨h.1, h.2.1, h.2.2.1⟩

/-- C5: if the next `ms.length` inbound messages (`ms.length < 5`) decode successfully to
`ms`, none of them a USER command with a parameter, the message after them is a USER
command with first parameter `a` and trailing `r`, the id of the chosen nick `n` (first
parameter of the last NICK-with-parameters among `ms` when non-empty, otherwise the nick the
session had) is not a key of `users`, and the welcome encode succeeds, then `handshake`
returns success after exactly `ms.length + 1` decodes, the session has nick `n`, account `a`
and real `r` (each when non-empty, otherwise as before), `users` gains exactly the entry
`ID n -> u`, and the one message sent is the welcome reply; nothing else changes. -/
theorem handshake_success (w : World) (u : Ref) (ms : List Message) (mk : Message)
    (a r : String) (rest : List String) (hlen : ms.length < 5)
    (hdec : ∀ j (hj : j < ms.length),
      (w.mem u).decoder ((w.mem u).reads + j) = Except.ok ms[j])
    (hno : ∀ m ∈ ms, ¬ isUser m)
    (hk : (w.mem u).decoder ((w.mem u).reads + ms.length) = Except.ok mk)
    (hcmd : mk.Command = USER) (hpar : mk.Params = a :: rest) (htr : mk.Trailing = r)
    (hfree : w.srv.users (ID (chosenNick ms (w.mem u).Nick)) = none)
    (henc : (w.mem u).encoder (w.mem u).writes = none) :
    server.handshake w u =
      (none,
        { srv := { w.srv with
            users := Function.update w.srv.users (ID (chosenNick ms (w.mem u).Nick)) (some u) }
          mem := Function.update w.mem u
            { identity :=
                { Nick := chosenNick ms (w.mem u).Nick
                  User := if a ≠ "" then a else (w.mem u).identity.User
                  Real := if r ≠ "" then r else (w.mem u).identity.Real
                  Host := (w.mem u).identity.Host }
              decoder := (w.mem u).decoder
              encoder := (w.mem u).encoder
              reads := (w.mem u).reads + (ms.length + 1)
              writes := (w.mem u).writes + 1
              trace := (w.mem u).trace ++ List.replicate (ms.length + 1) Effect.decode ++
                [Effect.encode (welcome a) true] }
          spawned := w.spawned }) := by
  obtain ⟨i, hi⟩ : ∃ i, 5 = (i + 1) + ms.length := ⟨4 - ms.length, by omega⟩
  have hU : isUser mk := ⟨by simp [hpar], hcmd⟩
  unfold server.handshake
  rw [hi, handshakeLoop_skips u (i + 1) ms _ w hdec hno, foldl_nickStep,
    handshakeLoop_user u i _ _ mk (by simpa using hk) hU]
  simp only [setUser_mem_same, hpar, htr, List.headD_cons]
  have hs := Set_frame (((w.mem u).decoded ms.length).decoded 1)
    { Nick := (lastNick ms).getD "", User := a, Real := r, Host := "" }
  have hid := Set_identity (((w.mem u).decoded ms.length).decoded 1)
    { Nick := (lastNick ms).getD "", User := a, Real := r, Host := "" }
  generalize (((w.mem u).decoded ms.length).decoded 1).Set _ = v at hs hid ⊢
  obtain ⟨vi, vd, ve, vr, vw, vt⟩ := v
  obtain ⟨s1, s2, s3, s4, s5⟩ := hs
  simp only [decoded_decoder, decoded_encoder, decoded_reads, decoded_writes,
    decoded_identity] at s1 s2 s3 s4 s5 hid
  subst s1 s2 s3 s4 s5
  have hvi : vi = { Nick := chosenNick ms (w.mem u).Nick
                    User := if a ≠ "" then a else (w.mem u).identity.User
                    Real := if r ≠ "" then r else (w.mem u).identity.Real
                    Host := (w.mem u).identity.Host } := by
    rw [hid]
    simp only [chosenNick, user.Nick]
    cases lastNick ms with
    | none => simp
    | some p => simp
  subst hvi
  unfold userOutcome
  simp only [user.ID, Identity.ID, ID] at hfree ⊢
  simp only [setUser_srv, hfree, Option.isSome_none, Bool.false_eq_true, if_false, henc,
    setUser_spawned, Option.isNone_none]
  refine Prod.ext rfl ?_
  simp only [World.setUser, Function.update_idem, user.decoded, List.replicate_add,
    List.append_assoc, Nat.add_assoc]

/-- C5 (witness): the first client of the scenario, `NICK bob` then `USER bob 0 * :Bob Real`,
on the empty registry. -/
theorem handshake_success_witness :
    (server.handshake bobWorld 0).1 = none ∧
    ((server.handshake bobWorld 0).2.mem 0).identity =
      { Nick := "bob", User := "bob", Real := "Bob Real", Host := "localhost" } ∧
    ((server.handshake bobWorld 0).2.mem 0).reads = 2 ∧
    ((server.handshake bobWorld 0).2.mem 0).trace =
      [Effect.decode, Effect.decode, Effect.encode (welcome "bob") true] ∧
    (server.handshake bobWorld 0).2.srv.users "bob" = some 0 :=
  have h := handshake_success bobWorld 0 [msg NICK ["bob"] ""] (msg USER ["bob", "0", "*"] "Bob Real")
    "bob" "Bob Real" ["0", "*"] (by decide)
    (by intro j hj; simp at hj; subst hj; rfl) (by decide) rfl rfl rfl rfl rfl rfl
  ⟨by rw [h], by rw [h]; decide, by rw [h]; decide, by rw [h]; decide, by rw [h]; decide⟩

/-- C6: `add` returns false exactly when the id of the session is already a key of `users`,
and then nothing changes; otherwise it returns true and `users` is the old mapping extended
by the one binding `id -> u` (every other key maps as before), nothing else changes. -/
theorem add_insert_if_absent (w : World) (u : Ref) :
    ((server.add w u).1 = false ↔ ∃ s, w.srv.users (w.mem u).ID = some s) ∧
    ((server.add w u).1 = false → (server.add w u).2 = w) ∧
    ((server.add w u).1 = true →
      (server.add w u).2.srv.users = Function.update w.srv.users (w.mem u).ID (some u) ∧
      (server.add w u).2.srv.users (w.mem u).ID = some u ∧
      (∀ k, k ≠ (w.mem u).ID → (server.add w u).2.srv.users k = w.srv.users k) ∧
      (server.add w u).2.srv.channels = w.srv.channels ∧
      (server.add w u).2.srv.count = w.srv.count ∧
      (server.add w u).2.mem = w.mem ∧
      (server.add w u).2.spawned = w.spawned) := by
  cases h : w.srv.users (w.mem u).ID with
  | none =>
    have hadd : server.add w u = (true, { w with srv := { w.srv with
        users := Function.update w.srv.users (w.mem u).ID (some u) } }) := by
      simp [server.add, h]
    rw [hadd]
    refine ⟨by simp, by simp, ?_⟩
    intro _
    refine ⟨rfl, by simp, ?_, rfl, rfl, rfl, rfl⟩
    intro k hk
    simp [Function.update_noteq hk]
  | some s =>
    have hadd : server.add w u = (false, w) := by
      simp [server.add, h]
    rw [hadd]
    simp

/-- C7 (the code at the first call): on the registry of `New` (guest counter 0), `guestNick`
sets the counter to 1 and returns `Guest%!s(int=1)`, which is not `Guest1`. -/
theorem guestNick_first :
    (server.guestNick New).2.count = 1 ∧
    (server.guestNick New).1 = "Guest%!s(int=1)" ∧
    (server.guestNick New).1 ≠ "Guest" ++ toString (1 : Int) := by
  decide

/-- C8 (counterexample): with the guest counter at the largest `int`, a call of `guestNick`
leaves the counter at the smallest `int`: it has decreased. -/
theorem guestNick_wraps :
    fullCounter.count = 9223372036854775807 ∧
    (server.guestNick fullCounter).2.count = -9223372036854775808 ∧
    (server.guestNick fullCounter).2.count < fullCounter.count := by
  decide

/-- C8 (amended): from a registry whose guest counter `c` is in the range of `int` and for
`N` with `c + N` at most the largest `int`, the `N` nicks returned by `N` successive calls
of `guestNick` are pairwise distinct, also after lowercasing to ids, and the counter grows
by exactly 1 with each call; `handshake` and `Join` do not decrease a counter below the
largest `int`, and `add`, `Channel`, `names` and `handle` leave the counter alone. -/
theorem guest_distinct (s : server) (N : Nat) (h1 : minInt ≤ s.count)
    (h2 : s.count + N ≤ maxInt) :
    (s.guestNicks N).1.length = N ∧
    (s.guestNicks N).1.Nodup ∧
    ((s.guestNicks N).1.map ID).Nodup ∧
    (∀ i, i ≤ N → (s.guestNicks i).2.count = s.count + i) ∧
    (∀ i, i < N →
      ((s.guestNicks i).2.guestNick).2.count = (s.guestNicks i).2.count + 1) ∧
    (∀ (w : World) (u : Ref), w.srv = s → s.count < maxInt →
      s.count ≤ (server.handshake w u).2.srv.count ∧
      s.count ≤ (server.Join w u).2.srv.count) ∧
    (∀ (w : World) (u : Ref), w.srv = s → (server.add w u).2.srv.count = s.count) ∧
    (∀ (w : World) (u : Ref) (fuel : Nat), w.srv = s →
      (server.handle fuel w u).2.srv.count = s.count) ∧
    (∀ name, (s.Channel name).2.count = s.count) ∧
    (∀ (u : user) (cs : List String), (s.names u cs).2.count = s.count) := by
  have hinj : Function.Injective (fun (i : Nat) => sprintfGuest (s.count + 1 + (i : Int))) := by
    intro a b hab
    have := sprintfGuest_injective hab
    omega
  have hinj2 : Function.Injective
      (fun (i : Nat) => ID (sprintfGuest (s.count + 1 + (i : Int)))) := by
    intro a b hab
    have := ID_sprintfGuest_injective hab
    omega
  have hcount : ∀ i, i ≤ N → (s.guestNicks i).2.count = s.count + i := by
    intro i hi
    rw [guestNicks_spec i s h1 (by have : (i : Int) ≤ N := by exact_mod_cast hi
                                   omega)]
  refine ⟨?_, ?_, ?_, hcount, ?_, ?_, ?_, ?_, ?_, ?_⟩
  · rw [guestNicks_spec N s h1 h2]; simp
  · rw [guestNicks_spec N s h1 h2]
    exact (List.nodup_range N).map hinj
  · rw [guestNicks_spec N s h1 h2, List.map_map]
    exact (List.nodup_range N).map hinj2
  · intro i hi
    have hi2 : (i : Int) + 1 ≤ N := by exact_mod_cast hi
    rw [guestNick_eq, hcount i (by omega)]
    exact wrapInt_eq _ (by omega) (by omega)
  · intro w u hw hlt
    subst hw
    exact ⟨handshake_count w u h1 hlt, by rw [(Join_world w u).1]; exact handshake_count w u h1 hlt⟩
  · intro w u hw
    subst hw
    simp only [server.add]
    split <;> rfl
  · intro w u fuel hw
    subst hw
    rw [(handle_quiet u fuel w).1]
  · intro name
    simp only [server.Channel]
    split <;> rfl
  · intro u cs
    rw [names_spec]

/-- C8 (witness): three calls of `guestNick` on the registry of `New`. -/
theorem guest_distinct_witness :
    (server.guestNicks New 3).1.Nodup ∧ ((server.guestNicks New 3).1.map ID).Nodup ∧
    (server.guestNicks New 3).1 = ["Guest%!s(int=1)", "Guest%!s(int=2)", "Guest%!s(int=3)"] ∧
    (server.guestNicks New 3).2.count = 3 :=
  have h := guest_distinct New 3 (by decide) (by decide)
  ⟨h.2.1, h.2.2.1, by decide, by decide⟩

/-- C9 (counterexample): the same session is handed to `Join` twice and sends NICK alice,
USER, NICK bob, USER. Afterwards `users` binds it under `alice` and under `bob` while its
nick is `bob`. -/
theorem rejoin_breaks_keys :
    (runCalls renamerWorld [Call.Join 0, Call.Join 0]).srv.users "alice" = some 0 ∧
    (runCalls renamerWorld [Call.Join 0, Call.Join 0]).srv.users "bob" = some 0 ∧
    ID ((runCalls renamerWorld [Call.Join 0, Call.Join 0]).mem 0).Nick = "bob" := by
  decide

/-- C9 (amended): in every world reached from the empty registry by a sequence of `Join`,
`handshake` and dispatch-loop runs in which `Join` and `handshake` are only called on
sessions not registered at the time, every binding `k -> s` of `users` has
`k = ID (nick of s)`; so two distinct registered sessions have different ids, and no session
is bound under two keys. -/
theorem keys_agree (mem : Ref → user) (cs : List Call) (hf : freshCalls (World.start mem) cs) :
    (runCalls (World.start mem) cs).keysAgree ∧
    (∀ k1 k2 s1 s2, (runCalls (World.start mem) cs).srv.users k1 = some s1 →
      (runCalls (World.start mem) cs).srv.users k2 = some s2 → s1 ≠ s2 →
      ID ((runCalls (World.start mem) cs).mem s1).Nick ≠
        ID ((runCalls (World.start mem) cs).mem s2).Nick) ∧
    (∀ k1 k2 s, (runCalls (World.start mem) cs).srv.users k1 = some s →
      (runCalls (World.start mem) cs).srv.users k2 = some s → k1 = k2) := by
  have h : (runCalls (World.start mem) cs).keysAgree := by
    apply runCalls_keysAgree cs _ _ hf
    intro k s hk
    simp [World.start, New] at hk
  refine ⟨h, ?_, ?_⟩
  · intro k1 k2 s1 s2 h1 h2 hne heq
    have e1 := h k1 s1 h1
    have e2 := h k2 s2 h2
    rw [← e1, ← e2] at heq
    subst heq
    rw [h1] at h2
    exact hne (Option.some.inj h2)
  · intro k1 k2 s h1 h2
    rw [h k1 s h1, h k2 s h2]

/-- C9 (witness): both clients of the scenario join, then the dispatch loop of the first
runs for three iterations. -/
theorem keys_agree_witness :
    freshCalls (World.start bobWorld.mem) [Call.Join 0, Call.Join 1, Call.handle 3 0] ∧
    (runCalls (World.start bobWorld.mem) [Call.Join 0, Call.Join 1, Call.handle 3 0]).keysAgree ∧
    (runCalls (World.start bobWorld.mem) [Call.Join 0, Call.Join 1, Call.handle 3 0]).srv.users
      "bob" = some 0 :=
  have hf : freshCalls (World.start bobWorld.mem) [Call.Join 0, Call.Join 1, Call.handle 3 0] := by
    refine ⟨?_, ?_, trivial, trivial⟩
    · intro k
      simp [World.start, New]
    · intro k
      have hu : (Call.run (World.start bobWorld.mem) (Call.Join 0)).srv.users =
          Function.update (fun _ => none) "bob" (some 0) := by
        rfl
      rw [hu]
      by_cases hk : k = "bob"
      · subst hk; simp
      · simp [Function.update_noteq hk]
  ⟨hf, (keys_agree bobWorld.mem _ hf).1, by decide⟩

/-- C10: `names(u, cs...)` is the names report: for each `c` of `cs`, in request order, that
exists in the registry, one name-reply with params `[nick(u), "=", c]` and the space-joined
member names as trailing, then exactly one end-of-names reply with params `[nick(u), c]` when
`cs = [c]` and `[nick(u)]` otherwise; the registry is unchanged. So the result has one
message more than there are existing requested channels: an existing channel with members
`a`, `b` yields the name-reply with `a b` and the end-of-names reply naming the channel, a
nonexistent channel the end-of-names reply only. -/
theorem names_shape (s : server) (u : user) (cs : List String) :
    s.names u cs = (namesReport s u cs, s) ∧
    (s.names u cs).1.length = (cs.filter (fun c => s.HasChannel c)).length + 1 ∧
    (∀ c ch, s.channels (ID c) = some ch → ch.Names = ["a", "b"] →
      (s.names u [c]).1 =
        [{ Pfx := some s.Prefix, Command := RPL_NAMREPLY, Params := [u.Nick, "=", c],
           Trailing := "a b" },
         { Pfx := some s.Prefix, Command := RPL_ENDOFNAMES, Params := [u.Nick, c],
           Trailing := "End of /NAMES list." }]) ∧
    (∀ c, s.channels (ID c) = none →
      (s.names u [c]).1 =
        [{ Pfx := some s.Prefix, Command := RPL_ENDOFNAMES, Params := [u.Nick, c],
           Trailing := "End of /NAMES list." }]) := by
  refine ⟨names_spec s u cs, by simp [names_spec, namesReport], ?_, ?_⟩
  · intro c ch hc hn
    simp [names_spec, namesReport, server.HasChannel, hc, nameReply, endOfNames, hn,
      strings.Join, String.intercalate, String.intercalate.go]
  · intro c hc
    simp [names_spec, namesReport, server.HasChannel, hc, endOfNames]

/-- C10 (witness): names requests against a registry whose only channel is `#news`, with
members `a` and `b`. -/
theorem names_shape_witness :
    (newsServer.names bobFirst ["#News"]).1.map (fun m => (m.Command, m.Params, m.Trailing)) =
      [("353", ["", "=", "#News"], "a b"), ("366", ["", "#News"], "End of /NAMES list.")] ∧
    (newsServer.names bobFirst ["#nope"]).1.map (fun m => (m.Command, m.Params, m.Trailing)) =
      [("366", ["", "#nope"], "End of /NAMES list.")] ∧
    (newsServer.names bobFirst ["#nope", "#NEWS", "#x"]).1.map
        (fun m => (m.Command, m.Params, m.Trailing)) =
      [("353", ["", "=", "#NEWS"], "a b"), ("366", [""], "End of /NAMES list.")] :=
  ⟨by rw [(names_shape newsServer bobFirst ["#News"]).1]; decide, by decide, by decide⟩

/-- C11: when the dispatch loop decodes a PING message `m`, it hands exactly one message to
the encoder, the reply `pong m`, whose command is PONG and whose parameter list is that of
`m`; if the encode succeeds the loop goes on (with the registry unchanged), if it fails the
loop returns. -/
theorem ping_echo (w : World) (u : Ref) (fuel : Nat) (m : Message)
    (hd : (w.mem u).decoder (w.mem u).reads = Except.ok m) (hc : m.Command = PING) :
    (pong m).Command = PONG ∧ (pong m).Params = m.Params ∧
    ((w.mem u).encoder (w.mem u).writes = none →
      server.handleLoop u (fuel + 1) w =
        server.handleLoop u fuel (w.setUser u (((w.mem u).decoded 1).sent (pong m) true))) ∧
    (∀ e, (w.mem u).encoder (w.mem u).writes = some e →
      server.handleLoop u (fuel + 1) w =
        (Status.returned, w.setUser u (((w.mem u).decoded 1).sent (pong m) false))) := by
  have hq : m.Command ≠ QUIT := by rw [hc]; decide
  have hr : replies w.srv ((w.mem u).decoded 1) m = [pong m] := by simp [replies, hc]
  exact ⟨rfl, rfl, handleLoop_send_one u fuel w m (pong m) hd hq hr⟩

/-- C11 (witness): a client sends `PING irc.example` and then `QUIT`. -/
theorem ping_echo_witness :
    (pingWorld.mem 0).decoder (pingWorld.mem 0).reads =
      Except.ok (msg PING ["irc.example"] "") ∧
    server.handleLoop 0 (1 + 1) pingWorld =
      server.handleLoop 0 1 (pingWorld.setUser 0
        (((pingWorld.mem 0).decoded 1).sent (pong (msg PING ["irc.example"] "")) true)) ∧
    ((server.handle 5 pingWorld 0).2.mem 0).trace =
      [Effect.decode,
        Effect.encode
          { Pfx := some { Name := "irc-news", User := "", Host := "" }, Command := "PONG",
            Params := ["irc.example"], Trailing := "" } true,
        Effect.decode, Effect.close] :=
  ⟨rfl, (ping_echo pingWorld 0 1 (msg PING ["irc.example"] "") rfl rfl).2.2.1 rfl, by decide⟩

/-- C12 (the code at the scenario of the claim): the client sends `PING :token123`, decoded
to a PING with trailing field `token123`. The one reply of the dispatch loop is a PONG
whose trailing field is empty, not `token123`. -/
theorem ping_trailing_dropped :
    (tokenWorld.mem 0).decoder 0 = Except.ok (msg PING [] "token123") ∧
    ((server.handle 5 tokenWorld 0).2.mem 0).trace =
      [Effect.decode,
        Effect.encode
          { Pfx := some { Name := "irc-news", User := "", Host := "" }, Command := "PONG",
            Params := [], Trailing := "" } true,
        Effect.decode, Effect.close] ∧
    (pong (msg PING [] "token123")).Trailing = "" ∧
    (pong (msg PING [] "token123")).Trailing ≠ (msg PING [] "token123").Trailing :=
  ⟨rfl, by decide, rfl, by decide⟩

/-- C13 (counterexample): the client sends `JOIN #test`. The one reply of the dispatch loop
is the invite-only error with an empty parameter list: `#test` is not among its
parameters. -/
theorem join_reply_omits_channel :
    (joinWorld.mem 0).decoder 0 = Except.ok (msg JOIN ["#test"] "") ∧
    ((server.handle 5 joinWorld 0).2.mem 0).trace =
      [Effect.decode,
        Effect.encode
          { Pfx := some { Name := "irc-news", User := "", Host := "" }, Command := "473",
            Params := [], Trailing := "Cannot join channel (+i)" } true,
        Effect.decode, Effect.close] ∧
    "#test" ∉ inviteOnly.Params :=
  ⟨rfl, by decide, by decide⟩

/-- C13 (amended): when the dispatch loop decodes a JOIN message, it hands exactly one
message to the encoder, the reply `inviteOnly`: its command is the invite-only-channel
error, its parameter list is empty and its trailing text is `Cannot join channel (+i)`,
whatever the channel; if the encode succeeds the loop goes on, if it fails the loop
returns. -/
theorem join_rejected (w : World) (u : Ref) (fuel : Nat) (m : Message)
    (hd : (w.mem u).decoder (w.mem u).reads = Except.ok m) (hc : m.Command = JOIN) :
    inviteOnly.Command = ERR_INVITEONLYCHAN ∧ inviteOnly.Params = [] ∧
    inviteOnly.Trailing = "Cannot join channel (+i)" ∧
    ((w.mem u).encoder (w.mem u).writes = none →
      server.handleLoop u (fuel + 1) w =
        server.handleLoop u fuel (w.setUser u (((w.mem u).decoded 1).sent inviteOnly true))) ∧
    (∀ e, (w.mem u).encoder (w.mem u).writes = some e →
      server.handleLoop u (fuel + 1) w =
        (Status.returned, w.setUser u (((w.mem u).decoded 1).sent inviteOnly false))) := by
  have hq : m.Command ≠ QUIT := by rw [hc]; decide
  have hp : ¬ (JOIN = PING) := by decide
  have hr : replies w.srv ((w.mem u).decoded 1) m = [inviteOnly] := by simp [replies, hc, hp]
  exact ⟨rfl, rfl, rfl, handleLoop_send_one u fuel w m inviteOnly hd hq hr⟩

/-- C13 (witness): a client sends `JOIN #test` and then `QUIT`. -/
theorem join_rejected_witness :
    (joinWorld.mem 0).decoder (joinWorld.mem 0).reads = Except.ok (msg JOIN ["#test"] "") ∧
    server.handleLoop 0 (1 + 1) joinWorld =
      server.handleLoop 0 1 (joinWorld.setUser 0
        (((joinWorld.mem 0).decoded 1).sent inviteOnly true)) :=
  ⟨rfl, (join_rejected joinWorld 0 1 (msg JOIN ["#test"] "") rfl rfl).2.2.2.1 rfl⟩

/-- C14: a run of the dispatch loop, whether it has returned or is still running, leaves the
registry (`users`, `channels`, guest counter) exactly as it was, so no channel is created by
JOIN or NAMES and every binding of the session is still in `users`; `names` itself returns
the registry unchanged for existing and nonexistent channel names alike; and the loop does
return as soon as a decode fails or brings a QUIT. -/
theorem handle_keeps_registry (w : World) (u : Ref) (fuel : Nat) :
    (server.handle fuel w u).2.srv = w.srv ∧
    (server.handleLoop u fuel w).2.srv = w.srv ∧
    (∀ k, w.srv.users k = some u → (server.handle fuel w u).2.srv.users k = some u) ∧
    (∀ name, w.srv.channels name = none →
      (server.handle fuel w u).2.srv.channels name = none) ∧
    (∀ (s : server) (v : user) (cs : List String), (s.names v cs).2 = s) ∧
    (∀ j, j < fuel →
      ((∃ e, (w.mem u).decoder ((w.mem u).reads + j) = Except.error e) ∨
        (∃ m, (w.mem u).decoder ((w.mem u).reads + j) = Except.ok m ∧ m.Command = QUIT)) →
      (server.handle fuel w u).1 = Status.returned) := by
  have h := (handle_quiet u fuel w).1
  refine ⟨h, (handleLoop_quiet u fuel w).1, ?_, ?_, ?_, ?_⟩
  · intro k hk; rw [h]; exact hk
  · intro name hn; rw [h]; exact hn
  · intro s v cs; rw [names_spec]
  · intro j hj hx
    have hr := handleLoop_returns u j fuel w hj hx
    unfold server.handle
    generalize server.handleLoop u fuel w = x at hr
    obtain ⟨st, w1⟩ := x
    cases hr
    rfl

/-- C14 (witness): the client registered as `bob` asks for names of an existing and of a
nonexistent channel, and quits: the loop returns, `bob` is still bound, no channel `#x`. -/
theorem handle_keeps_registry_witness :
    listJoined.srv.users "bob" = some 0 ∧
    (server.handle 9 listJoined 0).1 = Status.returned ∧
    (server.handle 9 listJoined 0).2.srv.users "bob" = some 0 ∧
    (server.handle 9 listJoined 0).2.srv.channels "#x" = none ∧
    (server.handle 9 listJoined 0).2.srv.count = 0 :=
  ⟨by decide, by decide,
    (handle_keeps_registry listJoined 0 9).2.2.1 "bob" (by decide),
    (handle_keeps_registry listJoined 0 9).2.2.2.1 "#x" (by decide), by decide⟩

/-- C15: if the dispatch loop of session `u` has returned, the transport actions it added to
the trace are some actions `effs` followed by exactly one `Close`: no `Close` is among
`effs`, the `Close` is the last action (no decode or encode comes after it), and the action
just before the `Close` is either the decode that failed or brought the QUIT (so on QUIT
nothing is sent between the QUIT and the `Close`), or the encode that failed. -/
theorem close_once (w : World) (u : Ref) (fuel : Nat)
    (h : (server.handle fuel w u).1 = Status.returned) :
    ∃ effs, ((server.handle fuel w u).2.mem u).trace =
        (w.mem u).trace ++ effs ++ [Effect.close] ∧
      Effect.close ∉ effs ∧
      (w.mem u).reads < ((server.handle fuel w u).2.mem u).reads ∧
      ((effs.getLast? = some Effect.decode ∧
          ((∃ e, (w.mem u).decoder (((server.handle fuel w u).2.mem u).reads - 1) =
              Except.error e) ∨
           (∃ m, (w.mem u).decoder (((server.handle fuel w u).2.mem u).reads - 1) =
              Except.ok m ∧ m.Command = QUIT))) ∨
       ((∃ m, effs.getLast? = some (Effect.encode m false)) ∧
          ∃ m, (w.mem u).decoder (((server.handle fuel w u).2.mem u).reads - 1) =
            Except.ok m ∧ m.Command ≠ QUIT)) := by
  obtain ⟨effs, hs⟩ := handleLoop_shape u fuel w
  unfold server.handle at h ⊢
  generalize server.handleLoop u fuel w = x at hs h
  obtain ⟨st, w1⟩ := x
  cases st with
  | running => simp at h
  | returned =>
    obtain ⟨t1, t2, _, _, t5⟩ := hs
    obtain ⟨t6, t7⟩ := t5 rfl
    dsimp only at t1 t6 t7 ⊢
    refine ⟨effs, ?_, t2, ?_, ?_⟩
    · simp [World.onUser, user.Close, t1]
    · simpa [World.onUser, user.Close] using t6
    · simpa [World.onUser, user.Close] using t7

/-- C15 (witness): the client sends `PING irc.example` and `QUIT`; the trace is decode,
encode, decode, close. -/
theorem close_once_witness :
    (server.handle 5 pingWorld 0).1 = Status.returned ∧
    ∃ effs, ((server.handle 5 pingWorld 0).2.mem 0).trace =
        (pingWorld.mem 0).trace ++ effs ++ [Effect.close] ∧ Effect.close ∉ effs :=
  ⟨by decide,
    (close_once pingWorld 0 5 (by decide)).imp (fun _ hx => ⟨hx.1, hx.2.1⟩)⟩

/-- C16: after `Set(upd)` each of the four fields nick, account (`User`), real and host is
the field of `upd` if that is non-empty and the old field otherwise, and nothing else of
the session changes; an update with only the nick set keeps account, real and host; `Set`
of the all-empty identity changes nothing; and `Set(upd)` twice is `Set(upd)` once. -/
theorem Set_never_blanks (v : user) (upd : Identity) :
    (v.Set upd).identity =
      { Nick := if upd.Nick ≠ "" then upd.Nick else v.identity.Nick
        User := if upd.User ≠ "" then upd.User else v.identity.User
        Real := if upd.Real ≠ "" then upd.Real else v.identity.Real
        Host := if upd.Host ≠ "" then upd.Host else v.identity.Host } ∧
    ((v.Set upd).decoder = v.decoder ∧ (v.Set upd).encoder = v.encoder ∧
      (v.Set upd).reads = v.reads ∧ (v.Set upd).writes = v.writes ∧
      (v.Set upd).trace = v.trace) ∧
    (∀ n, (v.Set { Nick := n, User := "", Real := "", Host := "" }).identity.User =
        v.identity.User ∧
      (v.Set { Nick := n, User := "", Real := "", Host := "" }).identity.Real =
        v.identity.Real ∧
      (v.Set { Nick := n, User := "", Real := "", Host := "" }).identity.Host =
        v.identity.Host) ∧
    v.Set { Nick := "", User := "", Real := "", Host := "" } = v ∧
    (v.Set upd).Set upd = v.Set upd := by
  refine ⟨Set_identity v upd, Set_frame v upd, ?_, ?_, ?_⟩
  · intro n
    simp [Set_identity]
  · rw [Set_eq]
    simp
  · rw [Set_eq (v.Set upd) upd, Set_eq v upd]
    simp only [ne_eq, ite_not, user.mk.injEq, Identity.mk.injEq, and_true, true_and]
    refine ⟨?_, ?_, ?_, ?_⟩ <;> split_ifs <;> simp_all

/-- C17: the id of an identity is `ID` of its nick, which is `strings.ToLower` of it: on
ASCII nicks the lower-casing of the letters `A`..`Z`, in general the nick with every
character replaced by its Unicode lower-case form; `ID` is idempotent; and nicks that differ
only in letter case (position by position the characters are equal or one is the lower-case
form of the other) have the same id, as `Alice` and `alice` do. -/
theorem ID_lowercase :
    (∀ i : Identity, i.ID = ID i.Nick ∧ ID i.Nick = strings.ToLower i.Nick) ∧
    (∀ n : String, (∀ c ∈ n.data, c.toNat ≤ 127) → ID n = ⟨n.data.map Char.toLower⟩) ∧
    (∀ n : String, ID (ID n) = ID n) ∧
    (∀ a b : String, differOnlyInCase a b → ID a = ID b) ∧
    ID "Alice" = ID "alice" ∧ ID "Alice" = "alice" ∧ ID "ÉCOLE" = "école" := by
  refine ⟨fun _ => ⟨rfl, rfl⟩, ?_, ?_, ?_, by decide, by decide, by decide⟩
  · intro n hn
    apply String.ext
    simp only [ID, strings.ToLower]
    apply List.map_congr_left
    intro c hc
    exact unicode_ToLower_ascii c (hn c hc)
  · intro n
    apply String.ext
    simp only [ID, strings.ToLower, List.map_map]
    apply List.map_congr_left
    intro c _
    exact unicode_ToLower_idem c
  · intro a b h
    apply String.ext
    simp only [ID, strings.ToLower]
    exact map_toLower_caseVariant a.data b.data h

/-- C17 (witness): `École` and `ÉCOLE` differ only in letter case. -/
theorem ID_lowercase_witness :
    differOnlyInCase "École" "ÉCOLE" ∧ ID "École" = ID "ÉCOLE" :=
  have h : differOnlyInCase "École" "ÉCOLE" := by
    unfold differOnlyInCase
    refine List.Forall₂.cons (Or.inl rfl) (List.Forall₂.cons ?_ (List.Forall₂.cons ?_
      (List.Forall₂.cons ?_ (List.Forall₂.cons ?_ List.Forall₂.nil)))) <;>
      exact Or.inr (Or.inr (by decide))
  ⟨h, ID_lowercase.2.2.2.1 "École" "ÉCOLE" h⟩

/-- C18: a newly created channel has the lowercased name as id; and for names `n1`, `n2`
with the same lowercased form, `Channel(n1)` followed by `Channel(n2)` returns the same
channel both times, the second call leaves the registry unchanged, after the first call
`channels` binds `ID n1` to that channel and every other key as before, the first call
changes nothing at all if the channel existed, `users` and the guest counter are unchanged,
and `HasChannel(n2)` is true afterwards. -/
theorem Channel_idempotent (s : server) (n1 n2 : String) (h : ID n1 = ID n2) :
    (NewChannel n1).ID = ID n1 ∧
    ((s.Channel n1).2.Channel n2).1 = (s.Channel n1).1 ∧
    ((s.Channel n1).2.Channel n2).2 = (s.Channel n1).2 ∧
    (s.Channel n1).2.channels (ID n1) = some (s.Channel n1).1 ∧
    (∀ k, k ≠ ID n1 → (s.Channel n1).2.channels k = s.channels k) ∧
    (∀ ch, s.channels (ID n1) = some ch → s.Channel n1 = (ch, s)) ∧
    (s.Channel n1).2.users = s.users ∧
    (s.Channel n1).2.count = s.count ∧
    (s.Channel n1).2.HasChannel n2 = true ∧
    ((s.Channel n1).2.Channel n2).2.HasChannel n2 = true := by
  have key : (s.Channel n1).2.channels (ID n1) = some (s.Channel n1).1 := by
    simp only [server.Channel]
    cases hc : s.channels (ID n1) with
    | some ch => simp [hc]
    | none => simp [NewChannel, Channel.ID]
  have second : (s.Channel n1).2.Channel n2 = ((s.Channel n1).1, (s.Channel n1).2) := by
    generalize s.Channel n1 = r at key
    obtain ⟨ch, s1⟩ := r
    simp only [server.Channel, ← h]
    simp only at key
    rw [key]
  refine ⟨rfl, by rw [second], by rw [second], key, ?_, ?_, ?_, ?_, ?_, ?_⟩
  · intro k hk
    simp only [server.Channel]
    cases hc : s.channels (ID n1) with
    | some ch => rfl
    | none => simp [NewChannel, Channel.ID, Function.update_noteq hk]
  · intro ch hc
    simp [server.Channel, hc]
  · simp only [server.Channel]
    split <;> rfl
  · simp only [server.Channel]
    split <;> rfl
  · simp [server.HasChannel, ← h, key]
  · rw [second]
    simp [server.HasChannel, ← h, key]

/-- C18 (witness): `#News` then `#NEWS` on the registry of `New`. -/
theorem Channel_idempotent_witness :
    ID "#News" = ID "#NEWS" ∧
    ((New.Channel "#News").2.Channel "#NEWS").1 = { name := "#News", members := [] } ∧
    (New.Channel "#News").1 = { name := "#News", members := [] } ∧
    ((New.Channel "#News").2.Channel "#NEWS").2 = (New.Channel "#News").2 ∧
    (New.Channel "#News").2.channels "#news" = some { name := "#News", members := [] } :=
  have h := Channel_idempotent New "#News" "#NEWS" (by decide)
  ⟨by decide, by decide, by decide, h.2.2.1, by decide⟩

/-- C19: when the dispatch loop decodes a NAMES message with first parameter `p` (and any
further parameters `rest`), the messages `msgs` it hands to the encoder are those of
`names(u, p)`, in order: if all encodes succeed, all of `msgs` are sent and the loop goes
on; if one fails, the messages before it are sent, the failing one is attempted, nothing
after it, and the loop returns. When it decodes a NAMES message without parameters, a
PRIVMSG, or a command other than QUIT, PING, JOIN and NAMES, it sends nothing and goes on
to decode the next message. -/
theorem names_dispatch (w : World) (u : Ref) (fuel : Nat) (m : Message)
    (hd : (w.mem u).decoder (w.mem u).reads = Except.ok m) :
    (m.Command = NAMES → ∀ p rest msgs r v, m.Params = p :: rest →
      msgs = (w.srv.names (w.mem u) [p]).1 →
      ((w.mem u).decoded 1).EncodeMany msgs = (r, v) →
      (r = none →
        server.handleLoop u (fuel + 1) w = server.handleLoop u fuel (w.setUser u v) ∧
        v.trace = (w.mem u).trace ++ [Effect.decode] ++
          msgs.map (fun x => Effect.encode x true)) ∧
      (∀ e, r = some e →
        server.handleLoop u (fuel + 1) w = (Status.returned, w.setUser u v) ∧
        ∃ pre x post, msgs = pre ++ x :: post ∧
          v.trace = (w.mem u).trace ++ [Effect.decode] ++
            pre.map (fun x => Effect.encode x true) ++ [Effect.encode x false] ∧
          (w.mem u).encoder ((w.mem u).writes + pre.length) = some e ∧
          ∀ i, i < pre.length → (w.mem u).encoder ((w.mem u).writes + i) = none)) ∧
    ((m.Command = NAMES ∧ m.Params = []) ∨ m.Command = PRIVMSG ∨
        (m.Command ≠ QUIT ∧ m.Command ≠ PING ∧ m.Command ≠ JOIN ∧ m.Command ≠ NAMES) →
      server.handleLoop u (fuel + 1) w =
        server.handleLoop u fuel (w.setUser u ((w.mem u).decoded 1))) := by
  constructor
  · intro hc p rest msgs r v hp hmsgs henc
    have hq : m.Command ≠ QUIT := by rw [hc]; decide
    have h1 : ¬ (NAMES = PING) := by decide
    have h2 : ¬ (NAMES = JOIN) := by decide
    have hr : replies w.srv ((w.mem u).decoded 1) m = msgs := by
      simp only [replies, hc, h1, h2, if_false, hp, List.length_cons, List.headD_cons, hmsgs,
        names_spec]
      simp only [true_and, Nat.le_add_left, if_true]
      exact namesReport_congr _ _ _ _ rfl
    have hstep := handleLoop_step u fuel w m hd hq
    rw [hr, henc] at hstep
    constructor
    · intro hn
      subst hn
      have hok := EncodeMany_ok msgs ((w.mem u).decoded 1) (by rw [henc])
      rw [henc] at hok
      refine ⟨hstep, ?_⟩
      rw [hok.1]
      simp [user.decoded]
    · intro e hn
      subst hn
      have hfail := EncodeMany_fail msgs ((w.mem u).decoded 1) e (by rw [henc])
      rw [henc] at hfail
      obtain ⟨pre, x, post, g1, g2, _, g4, g5⟩ := hfail
      refine ⟨hstep, pre, x, post, g1, ?_, by simpa using g4, by simpa using g5⟩
      rw [g2]
      simp [user.decoded]
  · intro hc
    have hq : m.Command ≠ QUIT := by
      rcases hc with ⟨h, _⟩ | h | ⟨h, _⟩
      · rw [h]; decide
      · rw [h]; decide
      · exact h
    have hr : replies w.srv ((w.mem u).decoded 1) m = [] := by
      rcases hc with ⟨h, hp⟩ | h | ⟨_, h1, h2, h3⟩
      · have h1 : ¬ (NAMES = PING) := by decide
        have h2 : ¬ (NAMES = JOIN) := by decide
        simp [replies, h, hp, h1, h2]
      · have h1 : ¬ (PRIVMSG = PING) := by decide
        have h2 : ¬ (PRIVMSG = JOIN) := by decide
        have h3 : ¬ (PRIVMSG = NAMES) := by decide
        simp [replies, h, h1, h2, h3]
      · simp [replies, h1, h2, h3]
    rw [handleLoop_step u fuel w m hd hq, hr, EncodeMany_nil]

/-- C19 (witness): the registered client of `listJoined` sends `NAMES #News #x`: the two
messages of the names report for `#News` are sent, and the loop goes on. -/
theorem names_dispatch_witness :
    (listJoined.mem 0).decoder (listJoined.mem 0).reads = Except.ok (msg NAMES ["#News", "#x"] "") ∧
    server.handleLoop 0 (8 + 1) listJoined =
      server.handleLoop 0 8 (listJoined.setUser 0
        (((listJoined.mem 0).decoded 1).EncodeMany
          (listJoined.srv.names (listJoined.mem 0) ["#News"]).1).2) ∧
    ((server.handle 9 listJoined 0).2.mem 0).trace.map
        (fun e => match e with
          | Effect.encode x ok => (x.Command, x.Params, x.Trailing, ok)
          | Effect.decode => ("decode", [], "", true)
          | Effect.close => ("close", [], "", true)) =
      [("decode", [], "", true), ("decode", [], "", true),
        ("001", ["bob"], "Welcome!", true),
        ("decode", [], "", true),
        ("353", ["bob", "=", "#News"], "a b", true),
        ("366", ["bob", "#News"], "End of /NAMES list.", true),
        ("decode", [], "", true), ("decode", [], "", true), ("decode", [], "", true),
        ("close", [], "", true)] :=
  ⟨rfl,
    ((names_dispatch listJoined 0 8 (msg NAMES ["#News", "#x"] "") rfl).1 rfl "#News" ["#x"]
      (listJoined.srv.names (listJoined.mem 0) ["#News"]).1 none
      (((listJoined.mem 0).decoded 1).EncodeMany
          (listJoined.srv.names (listJoined.mem 0) ["#News"]).1).2 rfl rfl (by rfl)).1 rfl |>.1,
    by decide⟩

/-- C20: each single call of `add`, `handshake`, `Join`, `names`, `Channel` or `guestNick`
leaves every binding of `users` and every binding of `channels` in place, bound as before
(`HasChannel` returns a boolean and has no registry to return); a single `handshake` changes
`users` at no more than one key, where it adds a binding, and leaves the guest counter or
advances it by one step of `guestNick`, which is at most one more. -/
theorem registry_grows (w : World) (u : Ref) :
    w.srv.keeps (server.add w u).2.srv ∧
    w.srv.keeps (server.handshake w u).2.srv ∧
    w.srv.keeps (server.Join w u).2.srv ∧
    (∀ (v : user) (cs : List String), w.srv.keeps (w.srv.names v cs).2) ∧
    (∀ name : String, w.srv.keeps (w.srv.Channel name).2) ∧
    w.srv.keeps (w.srv.guestNick).2 ∧
    (∀ k1 k2, (server.handshake w u).2.srv.users k1 ≠ w.srv.users k1 →
      (server.handshake w u).2.srv.users k2 ≠ w.srv.users k2 → k1 = k2) ∧
    (∀ k, (server.handshake w u).2.srv.users k ≠ w.srv.users k →
      w.srv.users k = none ∧ (server.handshake w u).2.srv.users k = some u) ∧
    ((server.handshake w u).2.srv.count = w.srv.count ∨
      (server.handshake w u).2.srv.count = (w.srv.guestNick).2.count) ∧
    (minInt ≤ w.srv.count → (server.handshake w u).2.srv.count ≤ w.srv.count + 1) := by
  have hu := handshakeLoop_users u 5 { Nick := "", User := "", Real := "", Host := "" } w
  have hf := handshakeLoop_frame u 5 { Nick := "", User := "", Real := "", Host := "" } w
  have hch := hf.2.1
  have hcount := hf.2.2.2.2.2.2.2.1
  have hshake : w.srv.keeps (server.handshake w u).2.srv := by
    rcases hu with hu | ⟨k, hk, hu⟩
    · exact ⟨fun k x h => by rw [show (server.handshake w u).2.srv.users = w.srv.users from hu]
                             exact h,
        fun k c h => by rw [show (server.handshake w u).2.srv.channels = w.srv.channels from hch]
                        exact h⟩
    · exact keeps_insert _ _ k u hk hu hch
  have hchange : ∀ k, (server.handshake w u).2.srv.users k ≠ w.srv.users k →
      ∃ k0, k = k0 ∧ w.srv.users k0 = none ∧
        (server.handshake w u).2.srv.users = Function.update w.srv.users k0 (some u) := by
    intro k hne
    rcases hu with hu | ⟨k0, hk0, hu⟩
    · exact absurd (congrFun hu k) hne
    · refine ⟨k0, ?_, hk0, hu⟩
      by_contra hkk
      apply hne
      show (server.handshakeLoop u 5 _ w).2.srv.users k = _
      rw [hu, Function.update_noteq hkk]
  refine ⟨?_, hshake, ?_, ?_, ?_, ⟨fun _ _ h => h, fun _ _ h => h⟩, ?_, ?_, ?_, ?_⟩
  · exact add_keeps w u
  · rw [(Join_world w u).1]
    exact hshake
  · intro v cs
    rw [names_spec]
    exact keeps_refl _
  · intro name
    simp only [server.Channel]
    cases hc : w.srv.channels (ID name) with
    | some ch => exact keeps_refl _
    | none =>
      refine ⟨fun _ _ h => h, ?_⟩
      intro k c h
      have hne : k ≠ (NewChannel name).ID := by
        intro h0
        rw [h0] at h
        simp only [NewChannel, Channel.ID] at h
        rw [hc] at h
        cases h
      simp only [Function.update_noteq hne]
      exact h
  · intro k1 k2 h1 h2
    obtain ⟨a, ha, _, hua⟩ := hchange k1 h1
    obtain ⟨b, hb, _, hub⟩ := hchange k2 h2
    rw [ha, hb]
    by_contra hab
    have := congrFun (hua.symm.trans hub) a
    rw [Function.update_same, Function.update_noteq hab] at this
    rename_i h3 h4
    rw [← this] at h3
    cases h3
  · intro k hne
    obtain ⟨a, ha, hn, hua⟩ := hchange k hne
    subst ha
    exact ⟨hn, by rw [hua, Function.update_same]⟩
  · exact hcount
  · intro hmin
    rcases hcount with h | h
    · show (server.handshakeLoop u 5 _ w).2.srv.count ≤ _
      rw [h]; omega
    · show (server.handshakeLoop u 5 _ w).2.srv.count ≤ _
      rw [h]; exact wrapInt_succ_le _ hmin

end IrcNews
